import Mathlib

/-!
Verification of the texlive-mirrors repository.

The development shallowly embeds the three Rust source files:
  - src/parse_ctanmirrors.rs : the mirror-list (topology) nom parser,
  - src/parse_tlpdb.rs       : the package-database nom parser,
  - src/main.rs              : the liveness classifier, the checksum
    single-flight resolver, the checksum-file reader and the orchestrator.

Parsers are embedded as functions from a list of characters to an optional
pair of (remaining input, value), exactly nom's complete-mode behaviour.
The recursive repetition combinators (many0, many_till, ...) take fuel that
is instantiated with (input length + 1) at every call site; every repeated
parser of this code base consumes at least one character per iteration, so
this fuel is never exhausted, and nom's zero-consumption infinite-loop
guard (which turns a non-consuming success into a parse error) is modelled
faithfully.
-/

set_option maxHeartbeats 1000000
set_option maxRecDepth 10000

namespace TexliveMirrors

/-- A nom parser in complete mode: input to optional (rest, output). -/
def NP (α : Type) : Type := List Char → Option (List Char × α)

/-- Removes `pre` from the front of `s` (Rust strip_prefix / nom tag core). -/
def dropStart : List Char → List Char → Option (List Char)
  | [], s => some s
  | _ :: _, [] => none
  | p :: ps, c :: cs => if p = c then dropStart ps cs else none

/-- nom bytes::complete::tag; the output is the consumed tag itself. -/
def tagP (t : List Char) : NP (List Char) := fun s =>
  (dropStart t s).map (fun r => (r, t))

/-- nom combinator::map. -/
def pmap (p : NP α) (f : α → β) : NP β := fun s =>
  (p s).map (fun r => (r.1, f r.2))

/-- nom combinator::map_opt. -/
def pmapOpt (p : NP α) (f : α → Option β) : NP β := fun s =>
  (p s).bind (fun r => (f r.2).map (fun b => (r.1, b)))

/-- nom sequence::pair. -/
def pseqPair (p : NP α) (q : NP β) : NP (α × β) := fun s =>
  (p s).bind (fun r => (q r.1).map (fun r2 => (r2.1, (r.2, r2.2))))

/-- nom sequence::preceded. -/
def precededP (p : NP α) (q : NP β) : NP β := pmap (pseqPair p q) (fun x => x.2)

/-- nom sequence::terminated. -/
def terminatedP (p : NP α) (q : NP β) : NP α := pmap (pseqPair p q) (fun x => x.1)

/-- nom sequence::delimited. -/
def delimitedP (a : NP α) (b : NP β) (c : NP γ) : NP β :=
  precededP a (terminatedP b c)

/-- nom sequence::separated_pair. -/
def sepPairP (p : NP α) (sep : NP β) (q : NP γ) : NP (α × γ) :=
  pmap (pseqPair p (pseqPair sep q)) (fun x => (x.1, x.2.2))

/-- nom branch::alt for two branches; larger alts are nested right. -/
def orElse2 (p q : NP α) : NP α := fun s =>
  match p s with
  | some r => some r
  | none => q s

/-- nom combinator::eof. -/
def eofP : NP (List Char) := fun s =>
  match s with
  | [] => some ([], [])
  | _ :: _ => none

/-- nom combinator::recognize: returns the consumed slice. -/
def recognizeP (p : NP α) : NP (List Char) := fun s =>
  (p s).map (fun r => (r.1, s.take (s.length - r.1.length)))

/-- nom bytes::complete::is_not: one or more characters outside `bad`. -/
def isNot1 (bad : List Char) : NP (List Char) := fun s =>
  if (s.takeWhile (fun c => !(bad.contains c))).isEmpty then none
  else some (s.drop (s.takeWhile (fun c => !(bad.contains c))).length,
    s.takeWhile (fun c => !(bad.contains c)))

/-- nom bytes::complete::is_a: one or more characters inside `good`. -/
def isA1 (good : List Char) : NP (List Char) := fun s =>
  if (s.takeWhile (fun c => good.contains c)).isEmpty then none
  else some (s.drop (s.takeWhile (fun c => good.contains c)).length,
    s.takeWhile (fun c => good.contains c))

/-- Whether a character belongs to nom's multispace set. -/
def isMultispace (c : Char) : Bool :=
  c = ' ' || c = '\t' || c = '\r' || c = '\n'

/-- nom character::complete::multispace0. -/
def multispace0 : NP (List Char) := fun s =>
  some (s.drop (s.takeWhile isMultispace).length, s.takeWhile isMultispace)

/-- Helper for not_line_ending: splits before the first line break, failing
on a carriage return that is not followed by a newline. -/
def nleGo : List Char → Option (List Char × List Char)
  | [] => some ([], [])
  | c :: rest =>
    if c = '\n' then some ([], c :: rest)
    else if c = '\r' then
      match rest with
      | '\n' :: _ => some ([], c :: rest)
      | _ => none
    else (nleGo rest).map (fun r => (c :: r.1, r.2))

/-- nom character::complete::not_line_ending (complete mode). -/
def notLineEnding : NP (List Char) := fun s =>
  (nleGo s).map (fun r => (r.2, r.1))

/-- nom character::complete::line_ending. -/
def lineEnding : NP (List Char) := fun s =>
  match s with
  | '\n' :: r => some (r, ['\n'])
  | '\r' :: '\n' :: r => some (r, ['\r', '\n'])
  | _ => none

/-- One or more ascii decimal digits (nom digit1 core). -/
def digits1 : NP (List Char) := fun s =>
  if (s.takeWhile (fun c => c.isDigit)).isEmpty then none
  else some (s.drop (s.takeWhile (fun c => c.isDigit)).length,
    s.takeWhile (fun c => c.isDigit))

/-- Numeric value of a digit list. -/
def natOfDigits (ds : List Char) : Nat :=
  ds.foldl (fun acc c => 10 * acc + (c.toNat - 48)) 0

/-- nom character::complete::u32: digits with an overflow check. -/
def nomU32 : NP Nat := fun s =>
  (digits1 s).bind (fun r =>
    let n := natOfDigits r.2
    if n < 4294967296 then some (r.1, n) else none)

/-- nom character::complete::alphanumeric1 (ascii letters and digits). -/
def alphanumeric1 : NP (List Char) := fun s =>
  if (s.takeWhile (fun c => c.isAlphanum)).isEmpty then none
  else some (s.drop (s.takeWhile (fun c => c.isAlphanum)).length,
    s.takeWhile (fun c => c.isAlphanum))

/-- Fueled body of nom multi::many0 with the zero-consumption guard. -/
def many0F (p : NP α) : Nat → NP (List α)
  | 0 => fun _ => none
  | fuel + 1 => fun s =>
    match p s with
    | none => some (s, [])
    | some (s', a) =>
      if s'.length = s.length then none
      else (many0F p fuel s').map (fun r => (r.1, a :: r.2))

/-- nom multi::many0. -/
def many0 (p : NP α) : NP (List α) := fun s => many0F p (s.length + 1) s

/-- nom multi::many0_count. -/
def many0Count (p : NP α) : NP Nat := pmap (many0 p) (fun l => l.length)

/-- nom multi::many1_count: one iteration, then a guarded many0 loop. -/
def many1CountR (p : NP α) : NP Nat := fun s =>
  (p s).bind (fun r => (many0 p r.1).map (fun r2 => (r2.1, r2.2.length + 1)))

/-- Fueled body of nom multi::many_till: the terminator is tried first. -/
def manyTillF (p : NP α) (q : NP β) : Nat → NP (List α × β)
  | 0 => fun _ => none
  | fuel + 1 => fun s =>
    match q s with
    | some (s', b) => some (s', ([], b))
    | none =>
      match p s with
      | none => none
      | some (s', a) =>
        if s'.length = s.length then none
        else (manyTillF p q fuel s').map (fun r => (r.1, (a :: r.2.1, r.2.2)))

/-- nom multi::many_till. -/
def manyTill (p : NP α) (q : NP β) : NP (List α × β) := fun s =>
  manyTillF p q (s.length + 1) s

/-!
Embedding of src/parse_ctanmirrors.rs.  The borrowed structures are
modelled with lists (hash sets and maps only matter for key membership in
the claims treated here).  String literals that contain quote or brace
characters are written with character escapes throughout this file.
-/

/-- The single-quote character delimiting topology string literals. -/
def quoteChar : Char := Char.ofNat 39

/-- ws combinator from parse_ctanmirrors.rs. -/
def wsP (p : NP α) : NP α := delimitedP multispace0 p multispace0

/-- parse_string_literal from parse_ctanmirrors.rs. -/
def parse_string_literal : NP (List Char) :=
  delimitedP (tagP [quoteChar]) (isNot1 [quoteChar]) (tagP [quoteChar])

/-- parse_mirror_entry from parse_ctanmirrors.rs. -/
def parse_mirror_entry : NP (List Char) :=
  terminatedP (pmap parse_string_literal (fun url => url))
    (pseqPair (wsP (tagP (("=>").data))) (tagP (("1").data)))

/-- parse_mirror_set from parse_ctanmirrors.rs. -/
def parse_mirror_set : NP (List (List Char)) :=
  delimitedP (tagP (("\x7b").data))
    (pmap (many0 (wsP (terminatedP parse_mirror_entry (tagP ((",").data)))))
      (fun mirrors => mirrors))
    (tagP (("\x7d").data))

/-- parse_country from parse_ctanmirrors.rs. -/
def parse_country : NP (List Char × List (List Char)) :=
  sepPairP parse_string_literal (wsP (tagP (("=>").data))) (wsP parse_mirror_set)

/-- parse_continent from parse_ctanmirrors.rs. -/
def parse_continent : NP (List Char × List (List Char × List (List Char))) :=
  sepPairP parse_string_literal (wsP (tagP (("=>").data)))
    (pmap
      (delimitedP (tagP (("\x7b").data))
        (many0 (wsP (terminatedP parse_country (tagP ((",").data)))))
        (tagP (("\x7d").data)))
      (fun mirrors => mirrors))

/-- parse_mirrors from parse_ctanmirrors.rs. -/
def parse_mirrors : NP (List (List Char × List (List Char × List (List Char)))) :=
  delimitedP (tagP (("$mirrors = \x7b").data))
    (pmap (many0 (wsP (terminatedP parse_continent (tagP ((",").data)))))
      (fun mirrors => mirrors))
    (tagP (("\x7d;\n").data))

/-- The wrapper in main.rs parse_mirrors: the parse fails the whole run
when input remains after the closing brace line. -/
def parse_mirrors_full (s : List Char) :
    Option (List (List Char × List (List Char × List (List Char)))) :=
  (parse_mirrors s).bind (fun r => if r.1 = [] then some r.2 else none)

/-!
Embedding of src/parse_tlpdb.rs.
-/

/-- Category from parse_tlpdb.rs. -/
inductive Category
  | TLCore
  | Scheme
  | Collection
  | ConTeXt
  | Package
deriving DecidableEq

/-- BorrowedFiles from parse_tlpdb.rs. -/
structure Files where
  size : Nat
  files : List (List Char)
deriving DecidableEq

/-- BorrowedContactEntry from parse_tlpdb.rs. -/
structure ContactEntry where
  announce : Option (List Char) := none
  bugs : Option (List Char) := none
  development : Option (List Char) := none
  home : Option (List Char) := none
  repository : Option (List Char) := none
  support : Option (List Char) := none
deriving DecidableEq

/-- BorrowedCatalogueEntry from parse_tlpdb.rs. -/
structure CatalogueEntry where
  name : Option (List Char) := none
  aliasF : Option (List Char) := none
  also : Option (List Char) := none
  contact : ContactEntry := {}
  ctan : Option (List Char) := none
  license : Option (List Char) := none
  topics : Option (List Char) := none
  version : Option (List Char) := none
deriving DecidableEq

/-- BorrowedEntry from parse_tlpdb.rs. -/
structure Entry where
  name : List Char
  catalogue : CatalogueEntry
  category : Category
  container_checksum : Option (List Char)
  container_size : Option (List Char)
  depend : List (List Char)
  execute : List (List Char)
  long_desc : Option (List Char)
  post_action : List (List Char)
  relocated : Bool
  revision : Nat
  short_desc : Option (List Char)
  bin_files : List (List Char × Files)
  doc_container_checksum : Option (List Char)
  doc_container_size : Option (List Char)
  doc_files : Option Files
  run_files : Option Files
  src_container_checksum : Option (List Char)
  src_container_size : Option (List Char)
  src_files : Option Files
deriving DecidableEq

/-- Field from parse_tlpdb.rs. -/
inductive Field
  | Catalogue (v : List Char)
  | CatalogueAlias (v : List Char)
  | CatalogueAlso (v : List Char)
  | CatalogueContactAnnounce (v : List Char)
  | CatalogueContactBugs (v : List Char)
  | CatalogueContactDevelopment (v : List Char)
  | CatalogueContactHome (v : List Char)
  | CatalogueContactRepository (v : List Char)
  | CatalogueContactSupport (v : List Char)
  | CatalogueCtan (v : List Char)
  | CatalogueLicense (v : List Char)
  | CatalogueTopics (v : List Char)
  | CatalogueVersion (v : List Char)
  | Category (v : TexliveMirrors.Category)
  | ContainerChecksum (v : List Char)
  | ContainerSize (v : List Char)
  | Depend (v : List Char)
  | Execute (v : List Char)
  | LongDesc (v : List Char)
  | PostAction (v : List Char)
  | Relocated
  | Revision (v : Nat)
  | ShortDesc (v : List Char)
  | BinFiles (arch : List Char) (v : Files)
  | DocContainerChecksum (v : List Char)
  | DocContainerSize (v : List Char)
  | DocFiles (v : Files)
  | RunFiles (v : Files)
  | SrcContainerChecksum (v : List Char)
  | SrcContainerSize (v : List Char)
  | SrcFiles (v : Files)
deriving DecidableEq

/-- comment from parse_tlpdb.rs. -/
def comment : NP Unit :=
  pmap (many0Count (pseqPair (tagP (("#").data))
    (pseqPair notLineEnding lineEnding))) (fun _ => ())

/-- linebreak from parse_tlpdb.rs. -/
def linebreak : NP Unit :=
  pmap (pseqPair lineEnding comment) (fun _ => ())

/-- parse_name from parse_tlpdb.rs. -/
def parse_name : NP (List Char) :=
  delimitedP (tagP (("name ").data)) notLineEnding
    (pseqPair (tagP (("\n").data)) comment)

/-- parse_category from parse_tlpdb.rs. -/
def parse_category : NP Field :=
  delimitedP (tagP (("category ").data))
    (pmap
      (orElse2 (pmap (tagP (("TLCore").data)) (fun _ => Category.TLCore))
        (orElse2 (pmap (tagP (("Scheme").data)) (fun _ => Category.Scheme))
          (orElse2 (pmap (tagP (("Collection").data)) (fun _ => Category.Collection))
            (orElse2 (pmap (tagP (("ConTeXt").data)) (fun _ => Category.ConTeXt))
              (pmap (tagP (("Package").data)) (fun _ => Category.Package))))))
      (fun v => Field.Category v))
    linebreak

/-- A simple keyword field line: tag, free text, linebreak. -/
def lineField (kw : List Char) (f : List Char → Field) : NP Field :=
  delimitedP (tagP kw) (pmap notLineEnding f) linebreak

/-- parse_containersize from parse_tlpdb.rs. -/
def parse_containersize : NP Field :=
  lineField (("containersize ").data) Field.ContainerSize

/-- parse_containerchecksum from parse_tlpdb.rs. -/
def parse_containerchecksum : NP Field :=
  lineField (("containerchecksum ").data) Field.ContainerChecksum

/-- parse_doccontainersize from parse_tlpdb.rs. -/
def parse_doccontainersize : NP Field :=
  lineField (("doccontainersize ").data) Field.DocContainerSize

/-- parse_doccontainerchecksum from parse_tlpdb.rs. -/
def parse_doccontainerchecksum : NP Field :=
  lineField (("doccontainerchecksum ").data) Field.DocContainerChecksum

/-- parse_srccontainersize from parse_tlpdb.rs. -/
def parse_srccontainersize : NP Field :=
  lineField (("srccontainersize ").data) Field.SrcContainerSize

/-- parse_srccontainerchecksum from parse_tlpdb.rs. -/
def parse_srccontainerchecksum : NP Field :=
  lineField (("srccontainerchecksum ").data) Field.SrcContainerChecksum

/-- parse_catalogue from parse_tlpdb.rs. -/
def parse_catalogue : NP Field :=
  lineField (("catalogue ").data) Field.Catalogue

/-- parse_catalogue_ctan from parse_tlpdb.rs. -/
def parse_catalogue_ctan : NP Field :=
  lineField (("catalogue-ctan ").data) Field.CatalogueCtan

/-- parse_catalogue_topics from parse_tlpdb.rs. -/
def parse_catalogue_topics : NP Field :=
  lineField (("catalogue-topics ").data) Field.CatalogueTopics

/-- parse_catalogue_version from parse_tlpdb.rs. -/
def parse_catalogue_version : NP Field :=
  lineField (("catalogue-version ").data) Field.CatalogueVersion

/-- parse_catalogue_license from parse_tlpdb.rs. -/
def parse_catalogue_license : NP Field :=
  lineField (("catalogue-license ").data) Field.CatalogueLicense

/-- parse_catalogue_also from parse_tlpdb.rs. -/
def parse_catalogue_also : NP Field :=
  lineField (("catalogue-also ").data) Field.CatalogueAlso

/-- parse_catalogue_alias from parse_tlpdb.rs. -/
def parse_catalogue_alias : NP Field :=
  lineField (("catalogue-alias ").data) Field.CatalogueAlias

/-- parse_catalogue_contact_announce from parse_tlpdb.rs. -/
def parse_catalogue_contact_announce : NP Field :=
  lineField (("catalogue-contact-announce ").data) Field.CatalogueContactAnnounce

/-- parse_catalogue_contact_development from parse_tlpdb.rs. -/
def parse_catalogue_contact_development : NP Field :=
  lineField (("catalogue-contact-development ").data) Field.CatalogueContactDevelopment

/-- parse_catalogue_contact_repository from parse_tlpdb.rs. -/
def parse_catalogue_contact_repository : NP Field :=
  lineField (("catalogue-contact-repository ").data) Field.CatalogueContactRepository

/-- parse_catalogue_contact_bugs from parse_tlpdb.rs. -/
def parse_catalogue_contact_bugs : NP Field :=
  lineField (("catalogue-contact-bugs ").data) Field.CatalogueContactBugs

/-- parse_catalogue_contact_home from parse_tlpdb.rs. -/
def parse_catalogue_contact_home : NP Field :=
  lineField (("catalogue-contact-home ").data) Field.CatalogueContactHome

/-- parse_execute from parse_tlpdb.rs. -/
def parse_execute : NP Field :=
  lineField (("execute ").data) Field.Execute

/-- parse_postaction from parse_tlpdb.rs. -/
def parse_postaction : NP Field :=
  lineField (("postaction ").data) Field.PostAction

/-- parse_catalogue_contact_support from parse_tlpdb.rs. -/
def parse_catalogue_contact_support : NP Field :=
  lineField (("catalogue-contact-support ").data) Field.CatalogueContactSupport

/-- parse_relocated from parse_tlpdb.rs. -/
def parse_relocated : NP Field :=
  terminatedP (pmap (tagP (("relocated 1").data)) (fun _ => Field.Relocated)) linebreak

/-- parse_revision from parse_tlpdb.rs. -/
def parse_revision : NP Field :=
  delimitedP (tagP (("revision ").data)) (pmap nomU32 Field.Revision) linebreak

/-- parse_shortdesc from parse_tlpdb.rs. -/
def parse_shortdesc : NP Field :=
  lineField (("shortdesc ").data) Field.ShortDesc

/-- parse_longdesc from parse_tlpdb.rs. -/
def parse_longdesc : NP Field :=
  lineField (("longdesc ").data) Field.LongDesc

/-- parse_depend from parse_tlpdb.rs. -/
def parse_depend : NP Field :=
  lineField (("depend ").data) Field.Depend

/-- parse_files from parse_tlpdb.rs. -/
def parse_files : NP Files :=
  pmap
    (sepPairP (precededP (tagP (("size=").data)) nomU32) linebreak
      (many0 (delimitedP (tagP ((" ").data)) notLineEnding linebreak)))
    (fun r => Files.mk r.1 r.2)

/-- parse_runfiles from parse_tlpdb.rs. -/
def parse_runfiles : NP Field :=
  precededP (tagP (("runfiles ").data)) (pmap parse_files Field.RunFiles)

/-- The architecture token of parse_binfiles: recognize of many1_count of
alphanumeric1 or is_a of underscore and hyphen. -/
def archToken : NP (List Char) :=
  recognizeP (many1CountR (orElse2 alphanumeric1 (isA1 ['_', '-'])))

/-- parse_binfiles from parse_tlpdb.rs. -/
def parse_binfiles : NP Field :=
  precededP (tagP (("binfiles ").data))
    (pmap
      (pseqPair (delimitedP (tagP (("arch=").data)) archToken (tagP ((" ").data)))
        parse_files)
      (fun r => Field.BinFiles r.1 r.2))

/-- parse_srcfiles from parse_tlpdb.rs. -/
def parse_srcfiles : NP Field :=
  precededP (tagP (("srcfiles ").data)) (pmap parse_files Field.SrcFiles)

/-- parse_docfiles from parse_tlpdb.rs. -/
def parse_docfiles : NP Field :=
  precededP (tagP (("docfiles ").data)) (pmap parse_files Field.DocFiles)

/-- parse_field from parse_tlpdb.rs, with the source's alternative order. -/
def parse_field : NP Field :=
  orElse2 parse_category
    (orElse2 parse_catalogue
      (orElse2 parse_catalogue_ctan
        (orElse2 parse_catalogue_topics
          (orElse2 parse_catalogue_version
            (orElse2 parse_catalogue_license
              (orElse2 parse_catalogue_also
                (orElse2 parse_catalogue_alias
                  (orElse2 parse_catalogue_contact_announce
                    (orElse2 parse_catalogue_contact_development
                      (orElse2 parse_catalogue_contact_repository
                        (orElse2 parse_catalogue_contact_bugs
                          (orElse2 parse_catalogue_contact_home
                            (orElse2 parse_catalogue_contact_support
                              (orElse2 parse_execute
                                (orElse2 parse_postaction
                                  (orElse2 parse_relocated
                                    (orElse2 parse_revision
                                      (orElse2 parse_shortdesc
                                        (orElse2 parse_longdesc
                                          (orElse2 parse_depend
                                            (orElse2 parse_runfiles
                                              (orElse2 parse_binfiles
                                                (orElse2 parse_docfiles
                                                  (orElse2 parse_srcfiles
                                                    (orElse2 parse_containersize
                                                      (orElse2 parse_containerchecksum
                                                        (orElse2 parse_doccontainersize
                                                          (orElse2 parse_doccontainerchecksum
                                                            (orElse2 parse_srccontainersize
                                                              parse_srccontainerchecksum)))))))))))))))))))))))))))))

/-- The builder state of parse_entry's closure: one slot per mutable local
variable of the Rust fold. -/
structure EB where
  catalogue : Option (List Char) := none
  catalogue_alias : Option (List Char) := none
  catalogue_also : Option (List Char) := none
  catalogue_contact_announce : Option (List Char) := none
  catalogue_contact_bugs : Option (List Char) := none
  catalogue_contact_development : Option (List Char) := none
  catalogue_contact_home : Option (List Char) := none
  catalogue_contact_repository : Option (List Char) := none
  catalogue_contact_support : Option (List Char) := none
  catalogue_ctan : Option (List Char) := none
  catalogue_license : Option (List Char) := none
  catalogue_topics : Option (List Char) := none
  catalogue_version : Option (List Char) := none
  category : Option Category := none
  container_checksum : Option (List Char) := none
  container_size : Option (List Char) := none
  depend : List (List Char) := []
  execute : List (List Char) := []
  long_desc : Option (List Char) := none
  post_action : List (List Char) := []
  relocated : Bool := false
  revision : Option Nat := none
  short_desc : Option (List Char) := none
  bin_files : List (List Char × Files) := []
  doc_container_checksum : Option (List Char) := none
  doc_container_size : Option (List Char) := none
  doc_files : Option Files := none
  run_files : Option Files := none
  src_container_checksum : Option (List Char) := none
  src_container_size : Option (List Char) := none
  src_files : Option Files := none
deriving DecidableEq

/-- HashMap::insert on an association list: replace the value of an
existing key, otherwise append the binding. -/
def assocPut : List (List Char × Files) → List Char → Files → List (List Char × Files)
  | [], k, v => [(k, v)]
  | (k', v') :: rest, k, v =>
    if k' = k then (k, v) :: rest else (k', v') :: assocPut rest k v

/-- HashMap::get on an association list. -/
def assocFind : List (List Char × Files) → List Char → Option Files
  | [], _ => none
  | (k', v') :: rest, k => if k' = k then some v' else assocFind rest k

/-- One match arm of parse_entry's fold over fields; duplicate
non-repeatable fields return none, exactly as in the source. -/
def applyField (b : EB) : Field → Option EB
  | .Catalogue v =>
    if b.catalogue.isSome then none else some { b with catalogue := some v }
  | .CatalogueAlias v =>
    if b.catalogue_alias.isSome then none else some { b with catalogue_alias := some v }
  | .CatalogueAlso v =>
    if b.catalogue_also.isSome then none else some { b with catalogue_also := some v }
  | .CatalogueContactAnnounce v =>
    if b.catalogue_contact_announce.isSome then none
    else some { b with catalogue_contact_announce := some v }
  | .CatalogueContactBugs v =>
    if b.catalogue_contact_bugs.isSome then none
    else some { b with catalogue_contact_bugs := some v }
  | .CatalogueContactDevelopment v =>
    if b.catalogue_contact_development.isSome then none
    else some { b with catalogue_contact_development := some v }
  | .CatalogueContactHome v =>
    if b.catalogue_contact_home.isSome then none
    else some { b with catalogue_contact_home := some v }
  | .CatalogueContactRepository v =>
    if b.catalogue_contact_repository.isSome then none
    else some { b with catalogue_contact_repository := some v }
  | .CatalogueContactSupport v =>
    if b.catalogue_contact_support.isSome then none
    else some { b with catalogue_contact_support := some v }
  | .CatalogueCtan v =>
    if b.catalogue_ctan.isSome then none else some { b with catalogue_ctan := some v }
  | .CatalogueLicense v =>
    if b.catalogue_license.isSome then none
    else some { b with catalogue_license := some v }
  | .CatalogueTopics v =>
    if b.catalogue_topics.isSome then none
    else some { b with catalogue_topics := some v }
  | .CatalogueVersion v =>
    if b.catalogue_version.isSome then none
    else some { b with catalogue_version := some v }
  | .Category v =>
    if b.category.isSome then none else some { b with category := some v }
  | .ContainerChecksum v =>
    if b.container_checksum.isSome then none
    else some { b with container_checksum := some v }
  | .ContainerSize v =>
    if b.container_size.isSome then none
    else some { b with container_size := some v }
  | .Depend v => some { b with depend := b.depend ++ [v] }
  | .Execute v => some { b with execute := b.execute ++ [v] }
  | .LongDesc v =>
    match b.long_desc with
    | some existing => some { b with long_desc := some (existing ++ ' ' :: v) }
    | none => some { b with long_desc := some v }
  | .PostAction v => some { b with post_action := b.post_action ++ [v] }
  | .Relocated => some { b with relocated := true }
  | .Revision v =>
    if b.revision.isSome then none else some { b with revision := some v }
  | .ShortDesc v =>
    if b.short_desc.isSome then none else some { b with short_desc := some v }
  | .BinFiles arch v => some { b with bin_files := assocPut b.bin_files arch v }
  | .DocContainerChecksum v =>
    if b.doc_container_checksum.isSome then none
    else some { b with doc_container_checksum := some v }
  | .DocContainerSize v =>
    if b.doc_container_size.isSome then none
    else some { b with doc_container_size := some v }
  | .DocFiles v =>
    if b.doc_files.isSome then none else some { b with doc_files := some v }
  | .RunFiles v =>
    if b.run_files.isSome then none else some { b with run_files := some v }
  | .SrcContainerChecksum v =>
    if b.src_container_checksum.isSome then none
    else some { b with src_container_checksum := some v }
  | .SrcContainerSize v =>
    if b.src_container_size.isSome then none
    else some { b with src_container_size := some v }
  | .SrcFiles v =>
    if b.src_files.isSome then none else some { b with src_files := some v }

/-- The fold of parse_entry's closure over the field list. -/
def applyFields : EB → List Field → Option EB
  | b, [] => some b
  | b, f :: fs =>
    match applyField b f with
    | none => none
    | some b' => applyFields b' fs

/-- The final record construction of parse_entry's closure: category and
revision are required (the question-mark operators in the source). -/
def finalizeEB (name : List Char) (b : EB) : Option Entry :=
  match b.category, b.revision with
  | some cat, some rev =>
    some
      { name := name
        catalogue :=
          { name := b.catalogue
            aliasF := b.catalogue_alias
            also := b.catalogue_also
            contact :=
              { announce := b.catalogue_contact_announce
                bugs := b.catalogue_contact_bugs
                development := b.catalogue_contact_development
                home := b.catalogue_contact_home
                repository := b.catalogue_contact_repository
                support := b.catalogue_contact_support }
            ctan := b.catalogue_ctan
            license := b.catalogue_license
            topics := b.catalogue_topics
            version := b.catalogue_version }
        category := cat
        container_checksum := b.container_checksum
        container_size := b.container_size
        depend := b.depend
        execute := b.execute
        long_desc := b.long_desc
        post_action := b.post_action
        relocated := b.relocated
        revision := rev
        short_desc := b.short_desc
        bin_files := b.bin_files
        doc_container_checksum := b.doc_container_checksum
        doc_container_size := b.doc_container_size
        doc_files := b.doc_files
        run_files := b.run_files
        src_container_checksum := b.src_container_checksum
        src_container_size := b.src_container_size
        src_files := b.src_files }
  | _, _ => none

/-- The full closure of parse_entry: fold the fields, then finalize. -/
def mkEntry (name : List Char) (fields : List Field) : Option Entry :=
  (applyFields {} fields).bind (finalizeEB name)

/-- The terminator of a record: a blank line or end of input. -/
def entryEnd : NP Unit :=
  orElse2 linebreak (pmap eofP (fun _ => ()))

/-- The name-and-fields front of parse_entry (the pair under map_opt). -/
def parse_entry_raw : NP (List Char × (List Field × Unit)) :=
  pseqPair parse_name (manyTill parse_field entryEnd)

/-- parse_entry from parse_tlpdb.rs. -/
def parse_entry : NP Entry := fun s =>
  (parse_entry_raw s).bind (fun r =>
    (mkEntry r.2.1 r.2.2.1).map (fun e => (r.1, e)))

/-- parse_entries from parse_tlpdb.rs. -/
def parse_entries : NP (List Entry) := many0 parse_entry

/-!
Embedding of the liveness classifier get_mirror_data_from_tlpdb and its
helpers from src/main.rs.
-/

/-- MirrorData from main.rs. -/
inductive MirrorData
  | Dead
  | Alive (texlive_version : Nat) (revision : Nat)
  | Timeout
deriving DecidableEq

/-- Rust str::parse for unsigned integers: an optional leading plus sign,
one or more decimal digits, and a bound check for the integer width. -/
def rustParseUns (bound : Nat) (s : List Char) : Option Nat :=
  let t := match s with
    | '+' :: rest => rest
    | _ => s
  if t.isEmpty then none
  else if t.all (fun c => c.isDigit) then
    let n := natOfDigits t
    if n < bound then some n else none
  else none

/-- Rust str::parse::<u16>. -/
def rustParseU16 (s : List Char) : Option Nat := rustParseUns 65536 s

/-- Rust str::parse::<u32>. -/
def rustParseU32 (s : List Char) : Option Nat := rustParseUns 4294967296 s

/-- The dependency loop of get_mirror_data_from_tlpdb: scans tokens in
order, a failing parse aborts with none (the Dead return), a succeeding
parse overwrites the accumulator. -/
def scanDeps : List (List Char) → Option Nat → Option Nat →
    Option (Option Nat × Option Nat)
  | [], rel, rev => some (rel, rev)
  | d :: ds, rel, rev =>
    match dropStart (("release/").data) d with
    | some value =>
      match rustParseU16 value with
      | some n => scanDeps ds (some n) rev
      | none => none
    | none =>
      match dropStart (("revision/").data) d with
      | some value =>
        match rustParseU32 value with
        | some n => scanDeps ds rel (some n)
        | none => none
      | none => scanDeps ds rel rev

/-- get_mirror_data_from_tlpdb from main.rs. -/
def get_mirror_data_from_tlpdb (s : List Char) : MirrorData :=
  match parse_entries s with
  | none => .Dead
  | some (remaining, parsed) =>
    if remaining = [] then
      match parsed with
      | [] => .Dead
      | first_entry :: _ =>
        if first_entry.name = ("00texlive.config").data then
          match scanDeps first_entry.depend none none with
          | none => .Dead
          | some (some rel, some rev) => .Alive rel rev
          | some _ => .Dead
        else .Dead
    else .Dead

/-!
Model of the orchestrator process_mirrors from main.rs, for the shape
claim.  The topology is a three-level association structure (continent,
country, mirrors); each mirror spawns a probe whose verdict is abstracted
by the oracle `probe` applied to the tl_mirror URL that the source
constructs by appending the tlnet sub-path to the mirror base URL.  The
report keys are exactly the tl_mirror values, as in the source's
mirror_set.spawn closure.
-/

/-- A parsed topology: continent name, country name, mirror base URLs. -/
abbrev Topo : Type := List (List Char × List (List Char × List (List Char)))

/-- A report: the same levels with each mirror leaf carrying a verdict. -/
abbrev ReportT : Type := List (List Char × List (List Char × List (List Char × MirrorData)))

/-- The sub-path appended to every mirror base URL in process_mirrors. -/
def tlSuffix : List Char := ("systems/texlive/tlnet/").data

/-- The tl_mirror key construction from process_mirrors:
format of the mirror base URL followed by the tlnet sub-path. -/
def tlWrap (m : List Char) : List Char := m ++ tlSuffix

/-- process_mirrors from main.rs with the per-mirror network probe
abstracted to an oracle: each mirror leaf becomes the pair of the
constructed tl_mirror key and that probe's verdict. -/
def process_mirrors (probe : List Char → MirrorData) (t : Topo) : ReportT :=
  t.map (fun cont =>
    (cont.1, cont.2.map (fun ctry =>
      (ctry.1, ctry.2.map (fun m => (tlWrap m, probe (tlWrap m)))))))

/-- The full key structure of a report: continent names, country names,
and the mirror keys of each country. -/
def reportKeys (r : ReportT) : List (List Char × List (List Char × List (List Char))) :=
  r.map (fun cont => (cont.1, cont.2.map (fun ctry => (ctry.1, ctry.2.map (fun kv => kv.1)))))

/-!
Model of get_tlpdb_hash from main.rs (the part after the network fetch,
operating on the response body).  Rust strings are UTF-8 byte sequences;
byte slicing panics off character boundaries, which the model expresses
as a none result, while the two bail branches and the Ok result are a
some none and a some some.
-/

/-- UTF-8 encoding of one unicode scalar value. -/
def utf8Encode (c : Char) : List Nat :=
  if c.toNat < 128 then [c.toNat]
  else if c.toNat < 2048 then [192 + c.toNat / 64, 128 + c.toNat % 64]
  else if c.toNat < 65536 then
    [224 + c.toNat / 4096, 128 + (c.toNat / 64) % 64, 128 + c.toNat % 64]
  else
    [240 + c.toNat / 262144, 128 + (c.toNat / 4096) % 64,
      128 + (c.toNat / 64) % 64, 128 + c.toNat % 64]

/-- The UTF-8 bytes of a string. -/
def utf8Bytes (s : List Char) : List Nat := (s.map utf8Encode).flatten

/-- Rust str::is_char_boundary on the byte sequence. -/
def isBoundary (bs : List Nat) (i : Nat) : Bool :=
  if i = 0 then true
  else
    match bs[i]? with
    | none => i = bs.length
    | some b => b < 128 || 192 ≤ b

/-- The body-processing part of get_tlpdb_hash from main.rs: the length
guard, the byte slice response_text at 128, the space comparison, and the
truncation to the first 128 bytes.  A none models a Rust panic (string
slicing off a character boundary); some none models the bail branches;
some some is the Ok digest, the first 128 bytes. -/
def get_tlpdb_hash_body (s : List Char) : Option (Option (List Nat)) :=
  if (utf8Bytes s).length ≤ 128 then some none
  else if isBoundary (utf8Bytes s) 128 && isBoundary (utf8Bytes s) 129 then
    if (utf8Bytes s)[128]? = some 32 then some (some ((utf8Bytes s).take 128))
    else some none
  else none

/-!
Transition-system model of TlpdbByHash::by_hash from main.rs, for one
checksum entry.  Distinct checksums use disjoint entries of the map, so
the per-checksum claims are modelled on a single entry shared by n
concurrent callers.  The state holds the tokio Notify permit count (the
notify_one at entry creation pre-arms it to one, and notify_one stores at
most one permit), the watch channel value (the broadcast slot) and a
fetch counter; each caller is a phase machine with the suspension points
of by_hash.  The parameter v is the verdict that the content whose digest
equals the checksum classifies to; ok i tells whether caller i's mirror
delivers that content (a failed fetch and a digest mismatch are both
ok i = false, collapsing to the same source branch).
-/

/-- The control points of one by_hash caller. -/
inductive Phase
  | ready
  | waiting
  | leader
  | done (r : MirrorData)
deriving DecidableEq

/-- The shared entry state plus all caller phases and a fetch counter. -/
structure RSt (n : Nat) where
  permits : Nat
  slot : Option MirrorData
  phases : Fin n → Phase
  fetches : Nat

/-- The entry state right after creation in by_hash: the Notify token is
pre-armed with one permit, the watch slot is empty, no caller started. -/
def rinit (n : Nat) : RSt n :=
  { permits := 1, slot := none, phases := fun _ => Phase.ready, fetches := 0 }

/-- One step of caller i in by_hash.  ready: the borrow_and_update check
of the slot.  waiting: the select between the Notify future (consuming
the permit and starting a fetch) and the watch change.  leader: the fetch
and digest check resolve; on success the verdict is broadcast with
send_replace, on failure the permit is returned with notify_one and the
caller itself returns Dead. -/
inductive StepBy (ok : Fin n → Bool) (v : MirrorData) (i : Fin n) :
    RSt n → RSt n → Prop
  | check_hit (s : RSt n) (d : MirrorData) :
      s.phases i = Phase.ready → s.slot = some d →
      StepBy ok v i s { s with phases := Function.update s.phases i (Phase.done d) }
  | check_miss (s : RSt n) :
      s.phases i = Phase.ready → s.slot = none →
      StepBy ok v i s { s with phases := Function.update s.phases i Phase.waiting }
  | acquire (s : RSt n) :
      s.phases i = Phase.waiting → s.permits = 1 →
      StepBy ok v i s
        { s with permits := 0, phases := Function.update s.phases i Phase.leader,
                 fetches := s.fetches + 1 }
  | observe (s : RSt n) (d : MirrorData) :
      s.phases i = Phase.waiting → s.slot = some d →
      StepBy ok v i s { s with phases := Function.update s.phases i (Phase.done d) }
  | leader_ok (s : RSt n) :
      s.phases i = Phase.leader → ok i = true →
      StepBy ok v i s
        { s with slot := some v, phases := Function.update s.phases i (Phase.done v) }
  | leader_fail (s : RSt n) :
      s.phases i = Phase.leader → ok i = false →
      StepBy ok v i s
        { s with permits := 1,
                 phases := Function.update s.phases i (Phase.done MirrorData.Dead) }

/-- A step by any caller. -/
def RStep (ok : Fin n → Bool) (v : MirrorData) (s s' : RSt n) : Prop :=
  ∃ i, StepBy ok v i s s'

/-- Reachability from the freshly created entry. -/
def RReach (ok : Fin n → Bool) (v : MirrorData) (s : RSt n) : Prop :=
  Relation.ReflTransGen (RStep ok v) (rinit n) s

/-!
Specification-side definitions.  These follow the wording of the natural
language specification (never the source) and are compared with the
source-embedded definitions by the claim theorems.
-/

/-- Modelled from the spec wording of the liveness classifier (section 4.3):
a dependency token of the release or revision form whose value does not
parse exactly at its integer width. -/
def badDep (d : List Char) : Bool :=
  match dropStart (("release/").data) d with
  | some value => (rustParseU16 value).isNone
  | none =>
    match dropStart (("revision/").data) d with
    | some value => (rustParseU32 value).isNone
    | none => false

/-- The parseable values of the release tokens of a dependency list, in
order. -/
def relValues (ds : List (List Char)) : List Nat :=
  ds.filterMap (fun d => (dropStart (("release/").data) d).bind rustParseU16)

/-- The parseable values of the revision tokens of a dependency list, in
order. -/
def revValues (ds : List (List Char)) : List Nat :=
  ds.filterMap (fun d => (dropStart (("revision/").data) d).bind rustParseU32)

/-- The liveness classifier as the specification words it: parse the
document; a failed parse, unconsumed input, zero records, or a first
record not named 00texlive.config is Dead; any release or revision token
with an unparsable value is Dead; otherwise both a release and a revision
token must be present and the verdict is Alive with those values. -/
def classifier_spec (s : List Char) : MirrorData :=
  match parse_entries s with
  | none => .Dead
  | some (remaining, parsed) =>
    if remaining = [] then
      match parsed with
      | [] => .Dead
      | first_entry :: _ =>
        if first_entry.name = ("00texlive.config").data then
          if first_entry.depend.any badDep then .Dead
          else
            match (relValues first_entry.depend).getLast?,
                (revValues first_entry.depend).getLast? with
            | some rel, some rev => .Alive rel rev
            | _, _ => .Dead
        else .Dead
    else .Dead

/-- The kind of a field line, used to speak about repetition uniformly. -/
inductive FieldKind
  | KCatalogue
  | KCatalogueAlias
  | KCatalogueAlso
  | KCatalogueContactAnnounce
  | KCatalogueContactBugs
  | KCatalogueContactDevelopment
  | KCatalogueContactHome
  | KCatalogueContactRepository
  | KCatalogueContactSupport
  | KCatalogueCtan
  | KCatalogueLicense
  | KCatalogueTopics
  | KCatalogueVersion
  | KCategory
  | KContainerChecksum
  | KContainerSize
  | KDepend
  | KExecute
  | KLongDesc
  | KPostAction
  | KRelocated
  | KRevision
  | KShortDesc
  | KBinFiles
  | KDocContainerChecksum
  | KDocContainerSize
  | KDocFiles
  | KRunFiles
  | KSrcContainerChecksum
  | KSrcContainerSize
  | KSrcFiles
deriving DecidableEq

/-- The kind of a field value. -/
def kindOf : Field → FieldKind
  | .Catalogue _ => .KCatalogue
  | .CatalogueAlias _ => .KCatalogueAlias
  | .CatalogueAlso _ => .KCatalogueAlso
  | .CatalogueContactAnnounce _ => .KCatalogueContactAnnounce
  | .CatalogueContactBugs _ => .KCatalogueContactBugs
  | .CatalogueContactDevelopment _ => .KCatalogueContactDevelopment
  | .CatalogueContactHome _ => .KCatalogueContactHome
  | .CatalogueContactRepository _ => .KCatalogueContactRepository
  | .CatalogueContactSupport _ => .KCatalogueContactSupport
  | .CatalogueCtan _ => .KCatalogueCtan
  | .CatalogueLicense _ => .KCatalogueLicense
  | .CatalogueTopics _ => .KCatalogueTopics
  | .CatalogueVersion _ => .KCatalogueVersion
  | .Category _ => .KCategory
  | .ContainerChecksum _ => .KContainerChecksum
  | .ContainerSize _ => .KContainerSize
  | .Depend _ => .KDepend
  | .Execute _ => .KExecute
  | .LongDesc _ => .KLongDesc
  | .PostAction _ => .KPostAction
  | .Relocated => .KRelocated
  | .Revision _ => .KRevision
  | .ShortDesc _ => .KShortDesc
  | .BinFiles _ _ => .KBinFiles
  | .DocContainerChecksum _ => .KDocContainerChecksum
  | .DocContainerSize _ => .KDocContainerSize
  | .DocFiles _ => .KDocFiles
  | .RunFiles _ => .KRunFiles
  | .SrcContainerChecksum _ => .KSrcContainerChecksum
  | .SrcContainerSize _ => .KSrcContainerSize
  | .SrcFiles _ => .KSrcFiles

/-- The kinds whose duplication fails the record parse in the source: the
single-occurrence fields guarded by an is-some check. -/
def oneShot : FieldKind → Bool
  | .KCatalogue => true
  | .KCatalogueAlias => true
  | .KCatalogueAlso => true
  | .KCatalogueContactAnnounce => true
  | .KCatalogueContactBugs => true
  | .KCatalogueContactDevelopment => true
  | .KCatalogueContactHome => true
  | .KCatalogueContactRepository => true
  | .KCatalogueContactSupport => true
  | .KCatalogueCtan => true
  | .KCatalogueLicense => true
  | .KCatalogueTopics => true
  | .KCatalogueVersion => true
  | .KCategory => true
  | .KContainerChecksum => true
  | .KContainerSize => true
  | .KDepend => false
  | .KExecute => false
  | .KLongDesc => false
  | .KPostAction => false
  | .KRelocated => false
  | .KRevision => true
  | .KShortDesc => true
  | .KBinFiles => false
  | .KDocContainerChecksum => true
  | .KDocContainerSize => true
  | .KDocFiles => true
  | .KRunFiles => true
  | .KSrcContainerChecksum => true
  | .KSrcContainerSize => true
  | .KSrcFiles => true

/-- Whether a one-shot slot of the builder is filled. -/
def slotSet (b : EB) : FieldKind → Bool
  | .KCatalogue => b.catalogue.isSome
  | .KCatalogueAlias => b.catalogue_alias.isSome
  | .KCatalogueAlso => b.catalogue_also.isSome
  | .KCatalogueContactAnnounce => b.catalogue_contact_announce.isSome
  | .KCatalogueContactBugs => b.catalogue_contact_bugs.isSome
  | .KCatalogueContactDevelopment => b.catalogue_contact_development.isSome
  | .KCatalogueContactHome => b.catalogue_contact_home.isSome
  | .KCatalogueContactRepository => b.catalogue_contact_repository.isSome
  | .KCatalogueContactSupport => b.catalogue_contact_support.isSome
  | .KCatalogueCtan => b.catalogue_ctan.isSome
  | .KCatalogueLicense => b.catalogue_license.isSome
  | .KCatalogueTopics => b.catalogue_topics.isSome
  | .KCatalogueVersion => b.catalogue_version.isSome
  | .KCategory => b.category.isSome
  | .KContainerChecksum => b.container_checksum.isSome
  | .KContainerSize => b.container_size.isSome
  | .KDepend => false
  | .KExecute => false
  | .KLongDesc => false
  | .KPostAction => false
  | .KRelocated => false
  | .KRevision => b.revision.isSome
  | .KShortDesc => b.short_desc.isSome
  | .KBinFiles => false
  | .KDocContainerChecksum => b.doc_container_checksum.isSome
  | .KDocContainerSize => b.doc_container_size.isSome
  | .KDocFiles => b.doc_files.isSome
  | .KRunFiles => b.run_files.isSome
  | .KSrcContainerChecksum => b.src_container_checksum.isSome
  | .KSrcContainerSize => b.src_container_size.isSome
  | .KSrcFiles => b.src_files.isSome

/-- The texts of the longdesc lines of a field list, in source order. -/
def ldTexts (fs : List Field) : List (List Char) :=
  fs.filterMap (fun f =>
    match f with
    | .LongDesc v => some v
    | _ => none)

/-- Modelled from the spec: joining texts with single spaces. -/
def joinSpace : List (List Char) → List Char
  | [] => []
  | [x] => x
  | x :: y :: rest => x ++ ' ' :: joinSpace (y :: rest)

/-- Modelled from the spec: the long description is absent without any
longdesc line and otherwise the space-joined concatenation. -/
def specLongDesc (texts : List (List Char)) : Option (List Char) :=
  match texts with
  | [] => none
  | _ :: _ => some (joinSpace texts)

/-- The running accumulator form of the long-description concatenation,
used to state the fold invariant. -/
def joinAcc : Option (List Char) → List (List Char) → Option (List Char)
  | acc, [] => acc
  | none, x :: xs => joinAcc (some x) xs
  | some a, x :: xs => joinAcc (some (a ++ ' ' :: x)) xs

/-- The binfiles groups of a field list carrying a given architecture, in
source order. -/
def binValues (a : List Char) (fs : List Field) : List Files :=
  fs.filterMap (fun f =>
    match f with
    | .BinFiles arch v => if arch = a then some v else none
    | _ => none)

/-!
Grammar of the mirror-list document, modelled from the spec wording of
section 4.1: the assignment wrapper, single-quoted non-empty string
literals without inner quotes, insignificant whitespace between tokens, a
trailing comma after every entry including the last, and the literal 1 as
every mirror value.
-/

/-- A run of insignificant whitespace. -/
def IsWs (l : List Char) : Prop := ∀ c ∈ l, isMultispace c = true

/-- A single-quoted string literal: non-empty, no quote inside. -/
def IsLit (l : List Char) : Prop :=
  ∃ body, body ≠ [] ∧ (∀ c ∈ body, c ≠ quoteChar) ∧
    l = quoteChar :: body ++ [quoteChar]

/-- Zero or more adjacent blocks, each satisfying P. -/
inductive StarG (P : List Char → Prop) : List Char → Prop
  | nil : StarG P []
  | cons {c r : List Char} : P c → StarG P r → StarG P (c ++ r)

/-- One mirror entry: a literal, an arrow, and the literal value 1. -/
def MirrorEntryG (l : List Char) : Prop :=
  ∃ lit w1 w2, IsLit lit ∧ IsWs w1 ∧ IsWs w2 ∧
    l = lit ++ w1 ++ ("=>").data ++ w2 ++ ("1").data

/-- One comma-terminated element of a set: leading whitespace, the entry,
the mandatory trailing comma, trailing whitespace. -/
def ItemG (P : List Char → Prop) (l : List Char) : Prop :=
  ∃ w1 e w2, IsWs w1 ∧ P e ∧ IsWs w2 ∧ l = w1 ++ e ++ (",").data ++ w2

/-- A braced mirror set. -/
def MirrorSetG (l : List Char) : Prop :=
  ∃ b, StarG (ItemG MirrorEntryG) b ∧
    l = ("\x7b").data ++ b ++ ("\x7d").data

/-- One country: a literal, an arrow, and a braced mirror set, with
whitespace between tokens. -/
def CountryG (l : List Char) : Prop :=
  ∃ lit w1 w2 w3 ms w4, IsLit lit ∧ IsWs w1 ∧ IsWs w2 ∧ IsWs w3 ∧
    MirrorSetG ms ∧ IsWs w4 ∧
    l = lit ++ w1 ++ ("=>").data ++ w2 ++ w3 ++ ms ++ w4

/-- One continent: a literal, an arrow, and a braced set of
comma-terminated countries. -/
def ContinentG (l : List Char) : Prop :=
  ∃ lit w1 w2 b, IsLit lit ∧ IsWs w1 ∧ IsWs w2 ∧ StarG (ItemG CountryG) b ∧
    l = lit ++ w1 ++ ("=>").data ++ w2 ++ ("\x7b").data ++ b ++ ("\x7d").data

/-- The whole document: the assignment wrapper around comma-terminated
continents, closed by the brace, semicolon and newline. -/
def MirrorsDocG (s : List Char) : Prop :=
  ∃ b, StarG (ItemG ContinentG) b ∧
    s = ("$mirrors = \x7b").data ++ b ++ ("\x7d;\n").data

/-- Soundness of a parser for a block predicate: every successful parse
consumed a prefix satisfying the predicate. -/
def PSound (p : NP α) (P : List Char → Prop) : Prop :=
  ∀ s s' a, p s = some (s', a) → ∃ c, s = c ++ s' ∧ P c

/-!
Concrete inputs used by witnesses and counterexamples.
-/

/-- A one-continent, one-country, one-mirror topology used to exhibit the
report key transformation. -/
def topoC1 : Topo :=
  [((("Europe").data), [((("Germany").data), [("https://a/").data])])]

/-- The body witnessing the Ok path of the checksum reader: 128
non-hexadecimal bytes, a space, and a trailing file name. -/
def c10good : List Char := List.replicate 128 'z' ++ ' ' :: ("texlive.tlpdb").data

/-- The body witnessing the panic of the checksum reader: 127 ascii
bytes, then a two-byte character straddling offset 128. -/
def c10bad : List Char := List.replicate 127 'a' ++ [Char.ofNat 233, 'z']

/-- A record text with two category lines. -/
def c6doc : List Char :=
  ("name a\ncategory Package\ncategory Package\nrevision 1\n").data

/-- The field list parsed from c6doc. -/
def c6fields : List Field :=
  [Field.Category Category.Package, Field.Category Category.Package,
    Field.Revision 1]

/-- A record text with two relocated lines (and nothing else repeated). -/
def c7doc : List Char :=
  ("name a\ncategory Package\nrevision 1\nrelocated 1\nrelocated 1\n").data

/-- A field list with two binfiles groups for one architecture. -/
def c7fields : List Field :=
  [Field.Category Category.Package, Field.Revision 1,
    Field.BinFiles (("x86").data) (Files.mk 2 [("f1").data, ("f2").data]),
    Field.BinFiles (("x86").data) (Files.mk 3 [("g1").data])]

/-- The entry built from c7fields. -/
def c7entry : Entry := (mkEntry (("a").data) c7fields).get (by decide)

/-- A record text with three longdesc lines A, B., C. -/
def c8doc : List Char :=
  ("name x\ncategory Package\nrevision 1\nlongdesc A\nlongdesc B.\nlongdesc C\n").data

/-- The field list parsed from c8doc. -/
def c8fields : List Field :=
  [Field.Category Category.Package, Field.Revision 1,
    Field.LongDesc (("A").data), Field.LongDesc (("B.").data),
    Field.LongDesc (("C").data)]

/-- The entry built from c8doc's name and fields. -/
def c8entry : Entry := (mkEntry (("x").data) c8fields).get (by decide)

/-- The verdict of the content behind the checksum in the resolver
scenarios. -/
def vA : MirrorData := MirrorData.Alive 2024 70660

/-- Two callers whose mirrors both serve the right content. -/
def okAll : Fin 2 → Bool := fun _ => true

/-- Two callers; caller zero's mirror fails, caller one's works. -/
def okBad0 : Fin 2 → Bool := fun i => decide (i.val = 1)

/-- Resolver scenario: the freshly created entry. -/
def rsA : RSt 2 := rinit 2

/-- Caller zero has checked the empty slot and parked in the select. -/
def rsB : RSt 2 := { rsA with phases := Function.update rsA.phases 0 Phase.waiting }

/-- Caller one has also parked in the select. -/
def rsC : RSt 2 := { rsB with phases := Function.update rsB.phases 1 Phase.waiting }

/-- Caller zero has consumed the permit and started the fetch. -/
def rsD : RSt 2 :=
  { rsC with permits := 0, phases := Function.update rsC.phases 0 Phase.leader,
             fetches := rsC.fetches + 1 }

/-- Caller zero's fetch succeeded: the verdict is broadcast. -/
def rsE : RSt 2 :=
  { rsD with slot := some vA, phases := Function.update rsD.phases 0 (Phase.done vA) }

/-- Caller one woke on the watch change and returned the verdict. -/
def rsF : RSt 2 := { rsE with phases := Function.update rsE.phases 1 (Phase.done vA) }

/-- Caller zero's fetch failed: the permit is re-armed. -/
def rsG : RSt 2 :=
  { rsD with permits := 1,
             phases := Function.update rsD.phases 0 (Phase.done MirrorData.Dead) }

/-- An entry whose slot is already set while a caller is about to check
it. -/
def rsH : RSt 2 :=
  { permits := 0, slot := some vA, phases := fun _ => Phase.ready, fetches := 1 }

/-- The state after that caller's slot check. -/
def rsI : RSt 2 := { rsH with phases := Function.update rsH.phases 1 (Phase.done vA) }

/-- A small well-formed mirror-list document. -/
def c9doc : List Char :=
  ("$mirrors = \x7b\n  \x27Europe\x27 => \x7b\n    \x27Germany\x27 => \x7b\n      \x27https://m1/\x27 => 1,\n    \x7d,\n  \x7d,\n\x7d;\n").data

/-!
Theorems.  Helper lemmas first, then the claim theorems C1 to C10 with
their witnesses and counterexamples.
-/

theorem dropStart_eq_append (p s r : List Char) (h : dropStart p s = some r) :
    s = p ++ r := by
  induction p generalizing s with
  | nil => simpa [dropStart] using h
  | cons c cs ih =>
    cases s with
    | nil => simp [dropStart] at h
    | cons d ds =>
      simp only [dropStart] at h
      by_cases hc : c = d
      · subst hc
        simp only [if_pos rfl] at h
        simpa using ih ds h
      · simp [if_neg hc] at h

theorem dropStart_append (p r : List Char) : dropStart p (p ++ r) = some r := by
  induction p with
  | nil => simp [dropStart]
  | cons c cs ih => simp [dropStart, ih]

theorem dropStart_rev_of_rel (rest : List Char) :
    dropStart (("revision/").data) ((("release/").data) ++ rest) = none := rfl

theorem dropStart_rel_of_rev (rest : List Char) :
    dropStart (("release/").data) ((("revision/").data) ++ rest) = none := rfl

theorem lastq_cons (a : α) (l : List α) :
    (a :: l).getLast? = l.getLast?.or (some a) := by
  induction l generalizing a with
  | nil => simp
  | cons b l ih =>
    rw [List.getLast?_cons_cons, ih b, Option.or_assoc, Option.or_some]

theorem badDep_rel (value : List Char) :
    badDep ((("release/").data) ++ value) = (rustParseU16 value).isNone := by
  unfold badDep
  rw [dropStart_append]

theorem badDep_rev (value : List Char) :
    badDep ((("revision/").data) ++ value) = (rustParseU32 value).isNone := by
  unfold badDep
  rw [dropStart_rel_of_rev, dropStart_append]

theorem badDep_other (d : List Char)
    (h1 : dropStart (("release/").data) d = none)
    (h2 : dropStart (("revision/").data) d = none) : badDep d = false := by
  unfold badDep
  rw [h1, h2]

theorem relValues_cons_rel (value : List Char) (ds : List (List Char)) (n : Nat)
    (hv : rustParseU16 value = some n) :
    relValues (((("release/").data) ++ value) :: ds) = n :: relValues ds := by
  unfold relValues
  refine List.filterMap_cons_some ?_
  rw [dropStart_append, Option.some_bind]
  exact hv

theorem revValues_cons_rel (value : List Char) (ds : List (List Char)) :
    revValues (((("release/").data) ++ value) :: ds) = revValues ds := by
  unfold revValues
  refine List.filterMap_cons_none ?_
  rw [dropStart_rev_of_rel, Option.none_bind]

theorem relValues_cons_rev (value : List Char) (ds : List (List Char)) :
    relValues (((("revision/").data) ++ value) :: ds) = relValues ds := by
  unfold relValues
  refine List.filterMap_cons_none ?_
  rw [dropStart_rel_of_rev, Option.none_bind]

theorem revValues_cons_rev (value : List Char) (ds : List (List Char)) (n : Nat)
    (hv : rustParseU32 value = some n) :
    revValues (((("revision/").data) ++ value) :: ds) = n :: revValues ds := by
  unfold revValues
  refine List.filterMap_cons_some ?_
  rw [dropStart_append, Option.some_bind]
  exact hv

theorem relValues_cons_other (d : List Char) (ds : List (List Char))
    (h1 : dropStart (("release/").data) d = none) :
    relValues (d :: ds) = relValues ds := by
  unfold relValues
  refine List.filterMap_cons_none ?_
  rw [h1, Option.none_bind]

theorem revValues_cons_other (d : List Char) (ds : List (List Char))
    (h2 : dropStart (("revision/").data) d = none) :
    revValues (d :: ds) = revValues ds := by
  unfold revValues
  refine List.filterMap_cons_none ?_
  rw [h2, Option.none_bind]

theorem scanDeps_spec (ds : List (List Char)) : ∀ rel rev,
    scanDeps ds rel rev =
      if ds.any badDep then none
      else some (((relValues ds).getLast?).or rel, ((revValues ds).getLast?).or rev) := by
  induction ds with
  | nil =>
    intro rel rev
    simp [scanDeps, relValues, revValues]
  | cons d ds ih =>
    intro rel rev
    cases hrel : dropStart (("release/").data) d with
    | some value =>
      have hd := dropStart_eq_append _ _ _ hrel
      subst hd
      cases hv : rustParseU16 value with
      | some n =>
        simp only [scanDeps, dropStart_append, hv]
        rw [ih (some n) rev, List.any_cons, badDep_rel, hv,
          relValues_cons_rel value ds n hv, revValues_cons_rel value ds]
        simp only [Option.isNone_some, Bool.false_or]
        rw [lastq_cons, Option.or_assoc, Option.or_some]
      | none =>
        simp only [scanDeps, dropStart_append, hv]
        rw [List.any_cons, badDep_rel, hv]
        simp
    | none =>
      cases hrev : dropStart (("revision/").data) d with
      | some value =>
        have hd := dropStart_eq_append _ _ _ hrev
        subst hd
        cases hv : rustParseU32 value with
        | some n =>
          simp only [scanDeps, hrel, dropStart_append, hv]
          rw [ih rel (some n), List.any_cons, badDep_rev, hv,
            relValues_cons_rev value ds, revValues_cons_rev value ds n hv]
          simp only [Option.isNone_some, Bool.false_or]
          rw [lastq_cons, Option.or_assoc, Option.or_some]
        | none =>
          simp only [scanDeps, hrel, dropStart_append, hv]
          rw [List.any_cons, badDep_rev, hv]
          simp
      | none =>
        simp only [scanDeps, hrel, hrev]
        rw [ih rel rev, List.any_cons, badDep_other d hrel hrev,
          relValues_cons_other d ds hrel, revValues_cons_other d ds hrev]
        simp only [Bool.false_or]

/-- C2.  The liveness classifier is total by construction and agrees with
the specification's description everywhere: parse failure, unconsumed
input, zero records, or a wrongly named first record give Dead; any
release or revision dependency token whose value does not parse at its
width gives Dead; otherwise the verdict is Alive exactly when both a
release and a revision token are present, carrying their (last) parsed
values, and Dead when either is absent. -/
theorem c2_classifier_total_spec (s : List Char) :
    get_mirror_data_from_tlpdb s = classifier_spec s := by
  unfold get_mirror_data_from_tlpdb classifier_spec
  cases hp : parse_entries s with
  | none => rfl
  | some r =>
    obtain ⟨remaining, parsed⟩ := r
    by_cases hr : remaining = []
    · simp only [if_pos hr]
      cases parsed with
      | nil => rfl
      | cons first_entry rest =>
        by_cases hn : first_entry.name = ("00texlive.config").data
        · simp only [if_pos hn]
          rw [scanDeps_spec]
          by_cases hb : first_entry.depend.any badDep
          · simp [hb]
          · simp only [hb, if_neg, Bool.false_eq_true, not_false_eq_true,
              Option.or_none]
            cases (relValues first_entry.depend).getLast? <;>
              cases (revValues first_entry.depend).getLast? <;> simp
        · simp only [if_neg hn]
    · simp only [if_neg hr]

/-- C1 counterexample.  The claim states that the report carries the very
same mirror keys as the input topology; at this concrete topology the
orchestrator's report keys differ from the topology keys, because every
mirror leaf is keyed by the constructed tl_mirror URL (the base URL with
the tlnet sub-path appended), not by the input mirror key. -/
theorem c1_counterexample :
    reportKeys (process_mirrors (fun _ => MirrorData.Dead) topoC1) ≠ topoC1 := by
  decide

/-- C1 amended.  For every probe outcome and topology, the report keeps
the continent and country key structure unchanged, and the mirror keys
under each country are exactly the topology's mirrors with the tlnet
sub-path appended (an injective renaming of the leaves); only the keys
change in this way, each leaf carrying its verdict. -/
theorem c1_amended_shape (probe : List Char → MirrorData) (t : Topo) :
    reportKeys (process_mirrors probe t) =
      t.map (fun cont => (cont.1, cont.2.map (fun ctry =>
        (ctry.1, ctry.2.map tlWrap)))) := by
  simp [reportKeys, process_mirrors, List.map_map, Function.comp]

theorem utf8Encode_ascii (c : Char) (j b : Nat)
    (hj : (utf8Encode c)[j]? = some b) (hb : b < 128) :
    utf8Encode c = [b] ∧ j = 0 := by
  unfold utf8Encode at hj ⊢
  split_ifs at hj ⊢ with h1 h2 h3
  · have hjl : j < 1 := by
      rcases List.getElem?_eq_some_iff.mp hj with ⟨h, _⟩
      simpa using h
    interval_cases j
    simp only [List.getElem?_cons_zero, Option.some.injEq] at hj
    exact ⟨by rw [hj], rfl⟩
  · have hjl : j < 2 := by
      rcases List.getElem?_eq_some_iff.mp hj with ⟨h, _⟩
      simpa using h
    interval_cases j <;> simp only [List.getElem?_cons_zero,
      List.getElem?_cons_succ, Option.some.injEq] at hj <;> omega
  · have hjl : j < 3 := by
      rcases List.getElem?_eq_some_iff.mp hj with ⟨h, _⟩
      simpa using h
    interval_cases j <;> simp only [List.getElem?_cons_zero,
      List.getElem?_cons_succ, Option.some.injEq] at hj <;> omega
  · have hjl : j < 4 := by
      rcases List.getElem?_eq_some_iff.mp hj with ⟨h, _⟩
      simpa using h
    interval_cases j <;> simp only [List.getElem?_cons_zero,
      List.getElem?_cons_succ, Option.some.injEq] at hj <;> omega

theorem utf8Encode_head (c : Char) :
    ∃ b t, utf8Encode c = b :: t ∧ (b < 128 ∨ 192 ≤ b) := by
  unfold utf8Encode
  split_ifs with h1 h2 h3
  · exact ⟨_, _, rfl, Or.inl h1⟩
  · exact ⟨_, _, rfl, Or.inr (by omega)⟩
  · exact ⟨_, _, rfl, Or.inr (by omega)⟩
  · exact ⟨_, _, rfl, Or.inr (by omega)⟩

theorem utf8Bytes_after_ascii : ∀ (s : List Char) (i b b' : Nat),
    (utf8Bytes s)[i]? = some b → b < 128 →
    (utf8Bytes s)[i + 1]? = some b' → (b' < 128 ∨ 192 ≤ b') := by
  intro s
  induction s with
  | nil => intro i b b' h; simp [utf8Bytes] at h
  | cons c r ih =>
    intro i b b' hi hb hi1
    have hsplit : utf8Bytes (c :: r) = utf8Encode c ++ utf8Bytes r := by
      simp [utf8Bytes]
    rw [hsplit] at hi hi1
    by_cases hlt : i < (utf8Encode c).length
    · rw [List.getElem?_append_left hlt] at hi
      obtain ⟨henc, hj⟩ := utf8Encode_ascii c i b hi hb
      subst hj
      rw [henc] at hi1
      rw [List.getElem?_append_right (by simp)] at hi1
      simp only [List.length_singleton, Nat.sub_self] at hi1
      cases r with
      | nil => simp [utf8Bytes] at hi1
      | cons c' r' =>
        have hsplit2 : utf8Bytes (c' :: r') = utf8Encode c' ++ utf8Bytes r' := by
          simp [utf8Bytes]
        rw [hsplit2] at hi1
        obtain ⟨b0, t0, he, hp⟩ := utf8Encode_head c'
        rw [he] at hi1
        simp only [List.cons_append, List.getElem?_cons_zero,
          Option.some.injEq] at hi1
        rw [← hi1]
        exact hp
    · push_neg at hlt
      rw [List.getElem?_append_right hlt] at hi
      rw [List.getElem?_append_right (by omega)] at hi1
      have harith : i + 1 - (utf8Encode c).length = (i - (utf8Encode c).length) + 1 := by
        omega
      rw [harith] at hi1
      exact ih _ _ _ hi hb hi1

theorem get_tlpdb_hash_ok (s : List Char)
    (h32 : (utf8Bytes s)[128]? = some 32) :
    get_tlpdb_hash_body s = some (some ((utf8Bytes s).take 128)) := by
  have hlen : 128 < (utf8Bytes s).length := by
    rcases List.getElem?_eq_some_iff.mp h32 with ⟨h, _⟩
    exact h
  have hb128 : isBoundary (utf8Bytes s) 128 = true := by
    simp [isBoundary, h32]
  have hb129 : isBoundary (utf8Bytes s) 129 = true := by
    unfold isBoundary
    simp only [if_neg (by omega : ¬(129 = 0))]
    cases h' : (utf8Bytes s)[129]? with
    | none =>
      have h129 : (utf8Bytes s).length ≤ 129 := List.getElem?_eq_none_iff.mp h'
      simp only [decide_eq_true_eq]
      omega
    | some b' =>
      rcases utf8Bytes_after_ascii s 128 32 b' h32 (by omega) h' with h | h
      · simp only [Bool.or_eq_true, decide_eq_true_eq]
        exact Or.inl h
      · simp only [Bool.or_eq_true, decide_eq_true_eq]
        exact Or.inr h
  unfold get_tlpdb_hash_body
  rw [if_neg (by omega : ¬((utf8Bytes s).length ≤ 128)), hb128, hb129]
  simp only [Bool.and_self, if_true, if_pos h32]

/-- C10 amended.  The checksum-body reader is characterised as follows:
a body of at most 128 UTF-8 bytes is rejected with an error; a body whose
byte at offset 128 is the space byte yields Ok carrying exactly the first
128 bytes, with no validation that they are hexadecimal; and the only
inputs on which the code panics (the none result) are bodies longer than
128 bytes where offset 128 or offset 129 is not a character boundary (a
multi-byte character straddles the slice), contrary to the claim that no
input can make it panic. -/
theorem c10_amended_hash_body (s : List Char) :
    ((utf8Bytes s).length ≤ 128 → get_tlpdb_hash_body s = some none) ∧
    ((utf8Bytes s)[128]? = some 32 →
      get_tlpdb_hash_body s = some (some ((utf8Bytes s).take 128))) ∧
    (get_tlpdb_hash_body s = none →
      128 < (utf8Bytes s).length ∧
        ¬(isBoundary (utf8Bytes s) 128 = true ∧ isBoundary (utf8Bytes s) 129 = true)) := by
  refine ⟨?_, get_tlpdb_hash_ok s, ?_⟩
  · intro hle
    unfold get_tlpdb_hash_body
    simp [if_pos hle]
  · intro hnone
    unfold get_tlpdb_hash_body at hnone
    split_ifs at hnone with h1 h2
    constructor
    · omega
    · intro hcontra
      rw [Bool.and_eq_true] at h2
      exact h2 ⟨hcontra.1, hcontra.2⟩

/-- C10 witness: the amended theorem applied at the concrete good body. -/
theorem c10_witness :
    get_tlpdb_hash_body c10good = some (some ((utf8Bytes c10good).take 128)) :=
  (c10_amended_hash_body c10good).2.1 (by decide)

/-- C10 counterexample.  The claim asserts that no response body makes
get_tlpdb_hash panic; on this concrete body of 130 UTF-8 bytes the byte
slice at 128..129 falls inside the two-byte character, and the function
panics (the model's none). -/
theorem c10_counterexample : get_tlpdb_hash_body c10bad = none := by decide

theorem applyFields_append (l1 l2 : List Field) : ∀ b : EB,
    applyFields b (l1 ++ l2) = (applyFields b l1).bind (fun b' => applyFields b' l2) := by
  induction l1 with
  | nil => intro b; simp [applyFields]
  | cons f fs ih =>
    intro b
    simp only [List.cons_append, applyFields]
    cases applyField b f with
    | none => rfl
    | some b1 => simpa using ih b1

theorem applyField_oneShot_sets (b b' : EB) (f : Field)
    (h1 : oneShot (kindOf f) = true) (h2 : applyField b f = some b') :
    slotSet b' (kindOf f) = true := by
  cases f <;> simp only [kindOf, oneShot] at h1 ⊢ <;>
    first
    | exact absurd h1 (by decide)
    | (simp only [applyField] at h2; split_ifs at h2 <;>
        first
        | (rw [Option.some.injEq] at h2; subst h2; simp [slotSet])
        | exact Option.noConfusion h2)

theorem applyField_mono (b b' : EB) (f : Field) (k : FieldKind)
    (h2 : applyField b f = some b') (hk : slotSet b k = true) :
    slotSet b' k = true := by
  cases f <;> simp only [applyField] at h2 <;> (try split at h2) <;>
    first
    | (rw [Option.some.injEq] at h2; subst h2; cases k <;> simp_all [slotSet])
    | exact Option.noConfusion h2

theorem applyField_dup_none (b : EB) (f : Field)
    (h1 : oneShot (kindOf f) = true) (hs : slotSet b (kindOf f) = true) :
    applyField b f = none := by
  cases f <;> simp only [kindOf, oneShot] at h1 hs ⊢ <;>
    first
    | exact absurd h1 (by decide)
    | (simp only [slotSet] at hs; simp [applyField, hs])

theorem applyField_repeatable_some (b : EB) (f : Field)
    (h1 : oneShot (kindOf f) = false) : ∃ b', applyField b f = some b' := by
  cases f <;> simp only [kindOf, oneShot] at h1 <;>
    first
    | exact absurd h1 (by decide)
    | exact ⟨_, rfl⟩
    | (rcases hl : b.long_desc with _ | a <;> simp [applyField, hl])

theorem applyField_cat_preserve (b b' : EB) (f : Field)
    (hk : kindOf f ≠ FieldKind.KCategory) (h : applyField b f = some b') :
    b'.category = b.category := by
  cases f <;> simp only [kindOf, ne_eq] at hk <;>
    first
    | exact absurd trivial hk
    | exact absurd rfl hk
    | (simp only [applyField] at h; (try split at h) <;>
        first
        | (rw [Option.some.injEq] at h; subst h; simp)
        | exact Option.noConfusion h)

theorem applyField_rev_preserve (b b' : EB) (f : Field)
    (hk : kindOf f ≠ FieldKind.KRevision) (h : applyField b f = some b') :
    b'.revision = b.revision := by
  cases f <;> simp only [kindOf, ne_eq] at hk <;>
    first
    | exact absurd trivial hk
    | exact absurd rfl hk
    | (simp only [applyField] at h; (try split at h) <;>
        first
        | (rw [Option.some.injEq] at h; subst h; simp)
        | exact Option.noConfusion h)

theorem applyField_ld_preserve (b b' : EB) (f : Field)
    (hk : kindOf f ≠ FieldKind.KLongDesc) (h : applyField b f = some b') :
    b'.long_desc = b.long_desc := by
  cases f <;> simp only [kindOf, ne_eq] at hk <;>
    first
    | exact absurd trivial hk
    | exact absurd rfl hk
    | (simp only [applyField] at h; (try split at h) <;>
        first
        | (rw [Option.some.injEq] at h; subst h; simp)
        | exact Option.noConfusion h)

theorem applyField_bin_preserve (b b' : EB) (f : Field)
    (hk : kindOf f ≠ FieldKind.KBinFiles) (h : applyField b f = some b') :
    b'.bin_files = b.bin_files := by
  cases f <;> simp only [kindOf, ne_eq] at hk <;>
    first
    | exact absurd trivial hk
    | exact absurd rfl hk
    | (simp only [applyField] at h; (try split at h) <;>
        first
        | (rw [Option.some.injEq] at h; subst h; simp)
        | exact Option.noConfusion h)

theorem applyFields_mono (l : List Field) : ∀ (b b' : EB) (k : FieldKind),
    applyFields b l = some b' → slotSet b k = true → slotSet b' k = true := by
  induction l with
  | nil =>
    intro b b' k h hk
    simp only [applyFields, Option.some.injEq] at h
    subst h
    exact hk
  | cons f fs ih =>
    intro b b' k h hk
    simp only [applyFields] at h
    cases hf : applyField b f with
    | none => rw [hf] at h; exact Option.noConfusion h
    | some b1 =>
      rw [hf] at h
      exact ih b1 b' k h (applyField_mono b b1 f k hf hk)

theorem applyFields_none_of_dup (name0 : List Char) (l1 l2 l3 : List Field)
    (f1 f2 : Field) (h1 : oneShot (kindOf f1) = true)
    (h2 : kindOf f2 = kindOf f1) (b : EB) :
    applyFields b (l1 ++ f1 :: l2 ++ f2 :: l3) = none := by
  rw [applyFields_append, applyFields_append]
  cases ha : applyFields b l1 with
  | none => rfl
  | some b1 =>
    rw [Option.some_bind]
    cases hf : applyField b1 f1 with
    | none => simp [applyFields, hf]
    | some b2 =>
      have hset : slotSet b2 (kindOf f1) = true :=
        applyField_oneShot_sets b1 b2 f1 h1 hf
      cases hb : applyFields b2 l2 with
      | none => simp [applyFields, hf, hb]
      | some b3 =>
        have hset3 : slotSet b3 (kindOf f1) = true :=
          applyFields_mono l2 b2 b3 (kindOf f1) hb hset
        have hdup : applyField b3 f2 = none :=
          applyField_dup_none b3 f2 (h2 ▸ h1) (by rw [h2]; exact hset3)
        simp [applyFields, hf, hb, hdup]

theorem applyFields_repeat_some (l : List Field) : ∀ b : EB,
    (∀ f ∈ l, oneShot (kindOf f) = false) →
    ∃ b', applyFields b l = some b' := by
  induction l with
  | nil => intro b _; exact ⟨b, rfl⟩
  | cons f fs ih =>
    intro b h
    obtain ⟨b1, hb1⟩ := applyField_repeatable_some b f (h f (by simp))
    obtain ⟨b', hb'⟩ := ih b1 (fun g hg => h g (by simp [hg]))
    refine ⟨b', ?_⟩
    simp only [applyFields, hb1, hb']

theorem applyFields_cat_pres (l : List Field) : ∀ (b b' : EB),
    applyFields b l = some b' → (∀ f ∈ l, kindOf f ≠ FieldKind.KCategory) →
    b'.category = b.category := by
  induction l with
  | nil =>
    intro b b' h _
    simp only [applyFields, Option.some.injEq] at h
    subst h; rfl
  | cons f fs ih =>
    intro b b' h hall
    simp only [applyFields] at h
    cases hf : applyField b f with
    | none => rw [hf] at h; exact Option.noConfusion h
    | some b1 =>
      rw [hf] at h
      rw [ih b1 b' h (fun g hg => hall g (by simp [hg]))]
      exact applyField_cat_preserve b b1 f (hall f (by simp)) hf

theorem applyFields_rev_pres (l : List Field) : ∀ (b b' : EB),
    applyFields b l = some b' → (∀ f ∈ l, kindOf f ≠ FieldKind.KRevision) →
    b'.revision = b.revision := by
  induction l with
  | nil =>
    intro b b' h _
    simp only [applyFields, Option.some.injEq] at h
    subst h; rfl
  | cons f fs ih =>
    intro b b' h hall
    simp only [applyFields] at h
    cases hf : applyField b f with
    | none => rw [hf] at h; exact Option.noConfusion h
    | some b1 =>
      rw [hf] at h
      rw [ih b1 b' h (fun g hg => hall g (by simp [hg]))]
      exact applyField_rev_preserve b b1 f (hall f (by simp)) hf

theorem twoOfCountP (p : Field → Bool) (l : List Field)
    (h : 2 ≤ l.countP p) :
    ∃ l1 a l2 c l3, l = l1 ++ a :: l2 ++ c :: l3 ∧ p a = true ∧ p c = true := by
  induction l with
  | nil => simp [List.countP_nil] at h
  | cons x xs ih =>
    by_cases hx : p x = true
    · have h1 : 1 ≤ xs.countP p := by
        rw [List.countP_cons, if_pos hx] at h
        omega
      have hex : ∃ a ∈ xs, p a := List.countP_pos_iff.mp (by omega)
      obtain ⟨a, ha, hpa⟩ := hex
      obtain ⟨s, t, rfl⟩ := List.append_of_mem ha
      exact ⟨[], x, s, a, t, by simp, hx, hpa⟩
    · have h2 : 2 ≤ xs.countP p := by
        rw [List.countP_cons, if_neg hx] at h
        omega
      obtain ⟨l1, a, l2, c, l3, hl, hpa, hpc⟩ := ih h2
      exact ⟨x :: l1, a, l2, c, l3, by simp [hl], hpa, hpc⟩

theorem finalizeEB_none_of_cat (name0 : List Char) (b : EB)
    (h : b.category = none) : finalizeEB name0 b = none := by
  simp [finalizeEB, h]

theorem finalizeEB_none_of_rev (name0 : List Char) (b : EB)
    (h : b.revision = none) : finalizeEB name0 b = none := by
  unfold finalizeEB
  rw [h]
  cases b.category <;> rfl

theorem kindOf_eq_cat_iff (f : Field) :
    kindOf f = FieldKind.KCategory ↔ ∃ v, f = Field.Category v := by
  cases f <;> simp [kindOf]

theorem kindOf_eq_rev_iff (f : Field) :
    kindOf f = FieldKind.KRevision ↔ ∃ v, f = Field.Revision v := by
  cases f <;> simp [kindOf]

theorem mkEntry_cat_count (name0 : List Char) (fields : List Field)
    (hc : fields.countP (fun f => decide (kindOf f = FieldKind.KCategory)) ≠ 1) :
    mkEntry name0 fields = none := by
  rcases Nat.lt_or_ge (fields.countP (fun f => decide (kindOf f = FieldKind.KCategory))) 1
    with hz | hge
  · have hzero : fields.countP (fun f => decide (kindOf f = FieldKind.KCategory)) = 0 := by
      omega
    have hnone : ∀ f ∈ fields, kindOf f ≠ FieldKind.KCategory := by
      intro f hf
      have := List.countP_eq_zero.mp hzero f hf
      simpa using this
    unfold mkEntry
    cases hb : applyFields {} fields with
    | none => rfl
    | some b' =>
      have hcat : b'.category = ({} : EB).category :=
        applyFields_cat_pres fields {} b' hb hnone
      simp only [Option.some_bind]
      exact finalizeEB_none_of_cat name0 b' hcat
  · have h2 : 2 ≤ fields.countP (fun f => decide (kindOf f = FieldKind.KCategory)) := by
      omega
    obtain ⟨l1, a, l2, c, l3, hl, hpa, hpc⟩ := twoOfCountP _ fields h2
    have hka : kindOf a = FieldKind.KCategory := by simpa using hpa
    have hkc : kindOf c = FieldKind.KCategory := by simpa using hpc
    subst hl
    unfold mkEntry
    rw [applyFields_none_of_dup name0 l1 l2 l3 a c (by rw [hka]; rfl)
      (by rw [hkc, hka]) {}]
    rfl

theorem mkEntry_rev_count (name0 : List Char) (fields : List Field)
    (hc : fields.countP (fun f => decide (kindOf f = FieldKind.KRevision)) ≠ 1) :
    mkEntry name0 fields = none := by
  rcases Nat.lt_or_ge (fields.countP (fun f => decide (kindOf f = FieldKind.KRevision))) 1
    with hz | hge
  · have hzero : fields.countP (fun f => decide (kindOf f = FieldKind.KRevision)) = 0 := by
      omega
    have hnone : ∀ f ∈ fields, kindOf f ≠ FieldKind.KRevision := by
      intro f hf
      have := List.countP_eq_zero.mp hzero f hf
      simpa using this
    unfold mkEntry
    cases hb : applyFields {} fields with
    | none => rfl
    | some b' =>
      have hrev : b'.revision = ({} : EB).revision :=
        applyFields_rev_pres fields {} b' hb hnone
      simp only [Option.some_bind]
      exact finalizeEB_none_of_rev name0 b' hrev
  · have h2 : 2 ≤ fields.countP (fun f => decide (kindOf f = FieldKind.KRevision)) := by
      omega
    obtain ⟨l1, a, l2, c, l3, hl, hpa, hpc⟩ := twoOfCountP _ fields h2
    have hka : kindOf a = FieldKind.KRevision := by simpa using hpa
    have hkc : kindOf c = FieldKind.KRevision := by simpa using hpc
    subst hl
    unfold mkEntry
    rw [applyFields_none_of_dup name0 l1 l2 l3 a c (by rw [hka]; rfl)
      (by rw [hkc, hka]) {}]
    rfl

/-- C6.  A record whose parsed field list does not contain exactly one
category field and exactly one revision field fails parse_entry, and the
document consisting of that record is then rejected as a whole: the
many0 of records stops before it, consuming nothing, so the document
never parses to completion. -/
theorem c6_exactly_one_category_revision
    (t rest name0 : List Char) (fields : List Field)
    (hp : parse_entry_raw t = some (rest, (name0, (fields, ()))))
    (hc : fields.countP (fun f => decide (kindOf f = FieldKind.KCategory)) ≠ 1 ∨
        fields.countP (fun f => decide (kindOf f = FieldKind.KRevision)) ≠ 1) :
    parse_entry t = none ∧ parse_entries t = some (t, []) := by
  have hmk : mkEntry name0 fields = none := by
    cases hc with
    | inl h => exact mkEntry_cat_count name0 fields h
    | inr h => exact mkEntry_rev_count name0 fields h
  have hpe : parse_entry t = none := by
    unfold parse_entry
    rw [hp, Option.some_bind, hmk]
    rfl
  refine ⟨hpe, ?_⟩
  unfold parse_entries many0
  simp only [many0F, hpe]

/-- C6 witness: a record with two category lines has category count two,
so its parse fails and the single-record document never fully parses. -/
theorem c6_witness :
    parse_entry c6doc = none ∧ parse_entries c6doc = some (c6doc, []) :=
  c6_exactly_one_category_revision c6doc [] (("a").data) c6fields
    (by decide) (Or.inl (by decide))

theorem assocFind_put (m : List (List Char × Files)) (k a : List Char) (v : Files) :
    assocFind (assocPut m k v) a = if k = a then some v else assocFind m a := by
  induction m with
  | nil => simp [assocPut, assocFind]
  | cons kv rest ih =>
    obtain ⟨k', v'⟩ := kv
    by_cases hk : k' = k
    · subst hk
      simp only [assocPut, if_pos rfl, assocFind]
      by_cases ha : k' = a
      · simp [ha]
      · simp [ha, assocFind]
    · simp only [assocPut, if_neg hk, assocFind]
      by_cases ha : k' = a
      · subst ha
        have hka : ¬(k = k') := fun h => hk h.symm
        simp [hka, assocFind]
      · simp [ha, ih]

theorem kindOf_eq_bin_iff (f : Field) :
    kindOf f = FieldKind.KBinFiles ↔ ∃ arch v, f = Field.BinFiles arch v := by
  cases f <;> simp [kindOf]

theorem binValues_cons_other (a : List Char) (f : Field) (fs : List Field)
    (h : kindOf f ≠ FieldKind.KBinFiles) :
    binValues a (f :: fs) = binValues a fs := by
  cases f <;>
    first
    | exact absurd rfl h
    | simp [binValues, List.filterMap_cons]

theorem applyField_bin_update (b b1 : EB) (arch : List Char) (v : Files)
    (h : applyField b (Field.BinFiles arch v) = some b1) :
    b1.bin_files = assocPut b.bin_files arch v := by
  simp only [applyField, Option.some.injEq] at h
  subst h
  rfl

theorem applyFields_bin (fs : List Field) : ∀ (b b' : EB) (a : List Char),
    applyFields b fs = some b' →
    assocFind b'.bin_files a =
      ((binValues a fs).getLast?).or (assocFind b.bin_files a) := by
  induction fs with
  | nil =>
    intro b b' a h
    simp only [applyFields, Option.some.injEq] at h
    subst h
    simp [binValues]
  | cons f fs ih =>
    intro b b' a h
    simp only [applyFields] at h
    cases hf : applyField b f with
    | none => rw [hf] at h; exact Option.noConfusion h
    | some b1 =>
      rw [hf] at h
      by_cases hbin : kindOf f = FieldKind.KBinFiles
      · obtain ⟨arch, v, rfl⟩ := (kindOf_eq_bin_iff f).mp hbin
        have hb1 := applyField_bin_update b b1 arch v hf
        rw [ih b1 b' a h, hb1, assocFind_put]
        by_cases ha : arch = a
        · subst ha
          have hbv : binValues arch (Field.BinFiles arch v :: fs) =
              v :: binValues arch fs := by
            simp [binValues, List.filterMap_cons]
          rw [hbv, if_pos rfl, lastq_cons, Option.or_assoc, Option.or_some]
        · have hbv : binValues a (Field.BinFiles arch v :: fs) = binValues a fs := by
            simp [binValues, List.filterMap_cons, ha]
          rw [hbv, if_neg ha]
      · have hb1 : b1.bin_files = b.bin_files :=
          applyField_bin_preserve b b1 f hbin hf
        rw [ih b1 b' a h, hb1, binValues_cons_other a f fs hbin]

theorem finalizeEB_some (name0 : List Char) (b : EB) (c : Category) (r : Nat)
    (hc : b.category = some c) (hr : b.revision = some r) :
    ∃ e, finalizeEB name0 b = some e := by
  unfold finalizeEB
  rw [hc, hr]
  exact ⟨_, rfl⟩

theorem finalizeEB_bin (name0 : List Char) (b : EB) (e : Entry)
    (h : finalizeEB name0 b = some e) : e.bin_files = b.bin_files := by
  unfold finalizeEB at h
  split at h
  · rw [Option.some.injEq] at h
    subst h
    rfl
  · exact Option.noConfusion h

theorem finalizeEB_ld (name0 : List Char) (b : EB) (e : Entry)
    (h : finalizeEB name0 b = some e) : e.long_desc = b.long_desc := by
  unfold finalizeEB at h
  split at h
  · rw [Option.some.injEq] at h
    subst h
    rfl
  · exact Option.noConfusion h

/-- C7 counterexample.  The relocated field is outside the claim's list
of repeatable fields (depend, execute, postaction, binfiles), so by the
claim a record with two relocated lines must fail to parse; the parser
accepts it. -/
theorem c7_counterexample : (parse_entry c7doc).isSome = true := by decide

/-- C7 amended.  Duplicate-field behaviour of the record builder: any two
fields of the same one-shot kind (shortdesc, category, revision, the
container sizes and checksums, every catalogue and contact field,
runfiles, docfiles, srcfiles) anywhere in the list fail the whole record;
the repeatable kinds depend, execute, postaction, binfiles, and also
longdesc (accumulating) and relocated (an idempotent flag), never cause
a failure by repetition; and for binfiles exactly one group is kept per
architecture key, the last one in source order. -/
theorem c7_amended_repetition :
    (∀ (name0 : List Char) (l1 l2 l3 : List Field) (f1 f2 : Field),
      oneShot (kindOf f1) = true → kindOf f2 = kindOf f1 →
      mkEntry name0 (l1 ++ f1 :: l2 ++ f2 :: l3) = none) ∧
    (∀ (name0 : List Char) (c : Category) (r : Nat) (fs : List Field),
      (∀ f ∈ fs, oneShot (kindOf f) = false) →
      ∃ e, mkEntry name0 (Field.Category c :: Field.Revision r :: fs) = some e) ∧
    (∀ (name0 : List Char) (fields : List Field) (e : Entry) (a : List Char),
      mkEntry name0 fields = some e →
      assocFind e.bin_files a = (binValues a fields).getLast?) := by
  refine ⟨?_, ?_, ?_⟩
  · intro name0 l1 l2 l3 f1 f2 h1 h2
    unfold mkEntry
    rw [applyFields_none_of_dup name0 l1 l2 l3 f1 f2 h1 h2 {}]
    rfl
  · intro name0 c r fs hrep
    have hstart : applyFields {} (Field.Category c :: Field.Revision r :: fs) =
        applyFields { category := some c, revision := some r } fs := rfl
    obtain ⟨b', hb'⟩ :=
      applyFields_repeat_some fs { category := some c, revision := some r } hrep
    have hcat : slotSet b' FieldKind.KCategory = true :=
      applyFields_mono fs _ b' FieldKind.KCategory hb' rfl
    have hrev : slotSet b' FieldKind.KRevision = true :=
      applyFields_mono fs _ b' FieldKind.KRevision hb' rfl
    simp only [slotSet] at hcat hrev
    obtain ⟨c', hc'⟩ := Option.isSome_iff_exists.mp hcat
    obtain ⟨r', hr'⟩ := Option.isSome_iff_exists.mp hrev
    obtain ⟨e, he⟩ := finalizeEB_some name0 b' c' r' hc' hr'
    refine ⟨e, ?_⟩
    unfold mkEntry
    rw [hstart, hb', Option.some_bind, he]
  · intro name0 fields e a hmk
    unfold mkEntry at hmk
    cases hb : applyFields {} fields with
    | none => rw [hb] at hmk; exact Option.noConfusion hmk
    | some b' =>
      rw [hb, Option.some_bind] at hmk
      rw [finalizeEB_bin name0 b' e hmk, applyFields_bin fields {} b' a hb]
      have hinit : assocFind ({} : EB).bin_files a = none := rfl
      rw [hinit, Option.or_none]

/-- C7 witness: the amended theorem applied at concrete inputs: a record
with a duplicate shortdesc fails; a record of depends, postactions and
two binfiles groups for one architecture succeeds; and the kept group
for that architecture is the last one. -/
theorem c7_witness :
    mkEntry (("a").data)
      [Field.ShortDesc (("x").data), Field.Depend (("d/1").data),
        Field.ShortDesc (("y").data)] = none ∧
    assocFind c7entry.bin_files (("x86").data) = some (Files.mk 3 [("g1").data]) := by
  constructor
  · exact c7_amended_repetition.1 (("a").data) []
      [Field.Depend (("d/1").data)] [] (Field.ShortDesc (("x").data))
      (Field.ShortDesc (("y").data)) (by decide) (by decide)
  · have h := c7_amended_repetition.2.2 (("a").data) c7fields c7entry
      (("x86").data) (by decide)
    rw [h]
    decide

theorem kindOf_eq_ld_iff (f : Field) :
    kindOf f = FieldKind.KLongDesc ↔ ∃ v, f = Field.LongDesc v := by
  cases f <;> simp [kindOf]

theorem ldTexts_cons_other (f : Field) (fs : List Field)
    (h : kindOf f ≠ FieldKind.KLongDesc) : ldTexts (f :: fs) = ldTexts fs := by
  cases f <;>
    first
    | exact absurd rfl h
    | simp [ldTexts, List.filterMap_cons]

theorem applyField_ld_update (b b1 : EB) (v : List Char)
    (h : applyField b (Field.LongDesc v) = some b1) :
    b1.long_desc = joinAcc b.long_desc [v] := by
  simp only [applyField] at h
  cases hld : b.long_desc with
  | none =>
    rw [hld] at h
    rw [Option.some.injEq] at h
    subst h
    simp [joinAcc]
  | some a =>
    rw [hld] at h
    rw [Option.some.injEq] at h
    subst h
    simp [joinAcc]

theorem joinAcc_append_one (acc : Option (List Char)) (v : List Char)
    (ts : List (List Char)) :
    joinAcc (joinAcc acc [v]) ts = joinAcc acc (v :: ts) := by
  cases acc <;> simp [joinAcc]

theorem applyFields_ld (fs : List Field) : ∀ (b b' : EB),
    applyFields b fs = some b' →
    b'.long_desc = joinAcc b.long_desc (ldTexts fs) := by
  induction fs with
  | nil =>
    intro b b' h
    simp only [applyFields, Option.some.injEq] at h
    subst h
    simp [ldTexts, joinAcc]
  | cons f fs ih =>
    intro b b' h
    simp only [applyFields] at h
    cases hf : applyField b f with
    | none => rw [hf] at h; exact Option.noConfusion h
    | some b1 =>
      rw [hf] at h
      by_cases hld : kindOf f = FieldKind.KLongDesc
      · obtain ⟨v, rfl⟩ := (kindOf_eq_ld_iff f).mp hld
        have hb1 := applyField_ld_update b b1 v hf
        have hts : ldTexts (Field.LongDesc v :: fs) = v :: ldTexts fs := by
          simp [ldTexts, List.filterMap_cons]
        rw [ih b1 b' h, hb1, hts, joinAcc_append_one]
      · have hb1 : b1.long_desc = b.long_desc :=
          applyField_ld_preserve b b1 f hld hf
        rw [ih b1 b' h, hb1, ldTexts_cons_other f fs hld]

theorem joinAcc_some (ts : List (List Char)) : ∀ a : List Char,
    joinAcc (some a) ts = some (joinSpace (a :: ts)) := by
  induction ts with
  | nil => intro a; simp [joinAcc, joinSpace]
  | cons x xs ih =>
    intro a
    have hjs : joinSpace ((a ++ ' ' :: x) :: xs) = a ++ ' ' :: joinSpace (x :: xs) := by
      cases xs with
      | nil => simp [joinSpace]
      | cons y ys => simp [joinSpace]
    simp only [joinAcc, ih (a ++ ' ' :: x), hjs, joinSpace]

theorem joinAcc_none_spec (ts : List (List Char)) :
    joinAcc none ts = specLongDesc ts := by
  cases ts with
  | nil => rfl
  | cons x xs =>
    simp only [joinAcc, specLongDesc, joinAcc_some]

/-- C8.  For every parsed record, the long description is exactly the
space-joined concatenation of the texts of its longdesc lines in source
order, and a record with no longdesc lines has no long description. -/
theorem c8_longdesc_concatenation
    (t rest name0 : List Char) (fields : List Field) (e : Entry)
    (hp : parse_entry_raw t = some (rest, (name0, (fields, ()))))
    (he : mkEntry name0 fields = some e) :
    e.long_desc = specLongDesc (ldTexts fields) := by
  unfold mkEntry at he
  cases hb : applyFields {} fields with
  | none => rw [hb] at he; exact Option.noConfusion he
  | some b' =>
    rw [hb, Option.some_bind] at he
    rw [finalizeEB_ld name0 b' e he, applyFields_ld fields {} b' hb]
    exact joinAcc_none_spec (ldTexts fields)

/-- C8 witness: the record with longdesc lines A, B., C has long
description A B. C, via the claim theorem at that concrete record. -/
theorem c8_witness :
    c8entry.long_desc = specLongDesc (ldTexts c8fields) ∧
    c8entry.long_desc = some (("A B. C").data) := by
  constructor
  · exact c8_longdesc_concatenation c8doc [] (("x").data) c8fields c8entry
      (by decide) (by decide)
  · decide

theorem pmap_split (p : NP α) (f : α → β) (s s' : List Char) (out : β)
    (h : pmap p f s = some (s', out)) : ∃ a, p s = some (s', a) ∧ out = f a := by
  unfold pmap at h
  cases hp : p s with
  | none => rw [hp] at h; exact Option.noConfusion h
  | some r =>
    obtain ⟨m, a⟩ := r
    rw [hp] at h
    simp only [Option.map_some', Option.some.injEq, Prod.mk.injEq] at h
    obtain ⟨h1, h2⟩ := h
    subst h1
    subst h2
    exact ⟨a, rfl, rfl⟩

theorem pseqPair_split (p : NP α) (q : NP β) (s s' : List Char) (out : α × β)
    (h : pseqPair p q s = some (s', out)) :
    ∃ m, p s = some (m, out.1) ∧ q m = some (s', out.2) := by
  unfold pseqPair at h
  cases hp : p s with
  | none => rw [hp] at h; exact Option.noConfusion h
  | some r =>
    obtain ⟨m, a⟩ := r
    rw [hp] at h
    simp only [Option.some_bind] at h
    cases hq : q m with
    | none => rw [hq] at h; exact Option.noConfusion h
    | some r2 =>
      obtain ⟨m2, b⟩ := r2
      rw [hq] at h
      simp only [Option.map_some', Option.some.injEq, Prod.mk.injEq] at h
      obtain ⟨h1, h2⟩ := h
      subst h1
      subst h2
      exact ⟨m, rfl, hq⟩

theorem precededP_split (p : NP α) (q : NP β) (s s' : List Char) (out : β)
    (h : precededP p q s = some (s', out)) :
    ∃ m a, p s = some (m, a) ∧ q m = some (s', out) := by
  obtain ⟨ab, hpair, hout⟩ := pmap_split _ _ _ _ _ h
  obtain ⟨m, h1, h2⟩ := pseqPair_split p q s s' ab hpair
  subst hout
  exact ⟨m, ab.1, h1, h2⟩

theorem terminatedP_split (p : NP α) (q : NP β) (s s' : List Char) (out : α)
    (h : terminatedP p q s = some (s', out)) :
    ∃ m b, p s = some (m, out) ∧ q m = some (s', b) := by
  obtain ⟨ab, hpair, hout⟩ := pmap_split _ _ _ _ _ h
  obtain ⟨m, h1, h2⟩ := pseqPair_split p q s s' ab hpair
  subst hout
  exact ⟨m, ab.2, h1, h2⟩

theorem delimitedP_split (a : NP α) (b : NP β) (c : NP γ) (s s' : List Char)
    (out : β) (h : delimitedP a b c s = some (s', out)) :
    ∃ m1 x m2 y, a s = some (m1, x) ∧ b m1 = some (m2, out) ∧
      c m2 = some (s', y) := by
  obtain ⟨m1, x, h1, h2⟩ := precededP_split a (terminatedP b c) s s' out h
  obtain ⟨m2, y, h3, h4⟩ := terminatedP_split b c m1 s' out h2
  exact ⟨m1, x, m2, y, h1, h3, h4⟩

theorem sepPairP_split (p : NP α) (sep : NP β) (q : NP γ) (s s' : List Char)
    (out : α × γ) (h : sepPairP p sep q s = some (s', out)) :
    ∃ m1 m2 y, p s = some (m1, out.1) ∧ sep m1 = some (m2, y) ∧
      q m2 = some (s', out.2) := by
  obtain ⟨ab, hpair, hout⟩ := pmap_split _ _ _ _ _ h
  obtain ⟨m1, h1, h2⟩ := pseqPair_split p (pseqPair sep q) s s' ab hpair
  obtain ⟨m2, h3, h4⟩ := pseqPair_split sep q m1 s' ab.2 h2
  subst hout
  exact ⟨m1, m2, ab.2.1, h1, h3, h4⟩

theorem tagP_sound (t s s' : List Char) (out : List Char)
    (h : tagP t s = some (s', out)) : s = t ++ s' ∧ out = t := by
  unfold tagP at h
  cases hd : dropStart t s with
  | none => rw [hd] at h; exact Option.noConfusion h
  | some r =>
    rw [hd] at h
    simp only [Option.map_some', Option.some.injEq, Prod.mk.injEq] at h
    obtain ⟨h1, h2⟩ := h
    subst h1
    exact ⟨dropStart_eq_append t s _ hd, h2.symm⟩

theorem takeWhile_drop (q : Char → Bool) (s : List Char) :
    s.takeWhile q ++ s.drop (s.takeWhile q).length = s := by
  induction s with
  | nil => rfl
  | cons c cs ih =>
    cases hq : q c <;> simp [List.takeWhile_cons, hq, ih]

theorem multispace0_sound (s s' w : List Char)
    (h : multispace0 s = some (s', w)) : s = w ++ s' ∧ IsWs w := by
  unfold multispace0 at h
  simp only [Option.some.injEq, Prod.mk.injEq] at h
  obtain ⟨h1, h2⟩ := h
  subst h2
  constructor
  · rw [← h1]
    exact (takeWhile_drop isMultispace s).symm
  · intro c hc
    exact List.mem_takeWhile_imp hc

theorem isNot1_sound (bad s s' out : List Char)
    (h : isNot1 bad s = some (s', out)) :
    s = out ++ s' ∧ out ≠ [] ∧ ∀ c ∈ out, !(bad.contains c) = true := by
  unfold isNot1 at h
  split_ifs at h with he
  simp only [Option.some.injEq, Prod.mk.injEq] at h
  obtain ⟨h1, h2⟩ := h
  subst h2
  refine ⟨?_, ?_, ?_⟩
  · rw [← h1]
    exact (takeWhile_drop _ s).symm
  · intro hx
    rw [hx] at he
    simp at he
  · intro c hc
    have hmem := List.mem_takeWhile_imp hc
    simpa using hmem

theorem many0F_star (p : NP α) (Q : List Char → Prop)
    (hp : ∀ u u' a, p u = some (u', a) → ∃ c, u = c ++ u' ∧ Q c) :
    ∀ (fuel : Nat) (s s' : List Char) (l : List α),
      many0F p fuel s = some (s', l) → ∃ pre, s = pre ++ s' ∧ StarG Q pre := by
  intro fuel
  induction fuel with
  | zero => intro s s' l h; exact Option.noConfusion h
  | succ fuel ih =>
    intro s s' l h
    cases hps : p s with
    | none =>
      simp only [many0F, hps, Option.some.injEq, Prod.mk.injEq] at h
      exact ⟨[], by simp [h.1], StarG.nil⟩
    | some r =>
      obtain ⟨s1, a⟩ := r
      simp only [many0F, hps] at h
      split_ifs at h with hlen
      cases hm : many0F p fuel s1 with
      | none => rw [hm] at h; exact Option.noConfusion h
      | some r2 =>
        obtain ⟨s2, l2⟩ := r2
        rw [hm] at h
        simp only [Option.map_some', Option.some.injEq, Prod.mk.injEq] at h
        obtain ⟨h1, _⟩ := h
        subst h1
        obtain ⟨c, hc, hQ⟩ := hp s s1 a hps
        obtain ⟨pre, hpre, hstar⟩ := ih s1 _ l2 hm
        exact ⟨c ++ pre, by rw [hc, hpre, List.append_assoc], StarG.cons hQ hstar⟩

theorem many0_star (p : NP α) (Q : List Char → Prop)
    (hp : ∀ u u' a, p u = some (u', a) → ∃ c, u = c ++ u' ∧ Q c)
    (s s' : List Char) (l : List α) (h : many0 p s = some (s', l)) :
    ∃ pre, s = pre ++ s' ∧ StarG Q pre :=
  many0F_star p Q hp (s.length + 1) s s' l h

theorem lit_psound : PSound parse_string_literal IsLit := by
  intro s s' out h
  unfold parse_string_literal at h
  obtain ⟨m1, x, m2, y, h1, h2, h3⟩ := delimitedP_split _ _ _ _ _ _ h
  obtain ⟨hs1, _⟩ := tagP_sound _ _ _ _ h1
  obtain ⟨hs2, hne, hchars⟩ := isNot1_sound _ _ _ _ h2
  obtain ⟨hs3, _⟩ := tagP_sound _ _ _ _ h3
  refine ⟨quoteChar :: out ++ [quoteChar], ?_, ?_⟩
  · rw [hs1, hs2, hs3]
    simp
  · refine ⟨out, hne, ?_, rfl⟩
    intro c hc
    have hcq := hchars c hc
    intro hq
    subst hq
    simp at hcq

theorem wsTag_psound (t : List Char) :
    PSound (wsP (tagP t)) (fun c => ∃ w1 w2, IsWs w1 ∧ IsWs w2 ∧
      c = w1 ++ t ++ w2) := by
  intro s s' out h
  unfold wsP at h
  obtain ⟨m1, x, m2, y, h1, h2, h3⟩ := delimitedP_split _ _ _ _ _ _ h
  obtain ⟨hs1, hw1⟩ := multispace0_sound _ _ _ h1
  obtain ⟨hs2, _⟩ := tagP_sound _ _ _ _ h2
  obtain ⟨hs3, hw2⟩ := multispace0_sound _ _ _ h3
  refine ⟨x ++ t ++ y, ?_, x, y, hw1, hw2, rfl⟩
  rw [hs1, hs2, hs3]
  simp

theorem parse_mirror_entry_psound : PSound parse_mirror_entry MirrorEntryG := by
  intro s s' out h
  unfold parse_mirror_entry at h
  obtain ⟨m1, y, h1, h2⟩ := terminatedP_split _ _ _ _ _ h
  obtain ⟨a, hlit, _⟩ := pmap_split _ _ _ _ _ h1
  obtain ⟨c1, hs1, hl1⟩ := lit_psound _ _ _ hlit
  obtain ⟨m2, hws, htag1⟩ := pseqPair_split _ _ _ _ _ h2
  obtain ⟨c2, hs2, w1, w2, hw1, hw2, hc2⟩ := wsTag_psound _ _ _ _ hws
  obtain ⟨hs3, _⟩ := tagP_sound _ _ _ _ htag1
  refine ⟨c1 ++ w1 ++ ("=>").data ++ w2 ++ ("1").data, ?_, ?_⟩
  · rw [hs1, hs2, hc2, hs3]
    simp
  · exact ⟨c1, w1, w2, hl1, hw1, hw2, rfl⟩

theorem item_psound (p : NP α) (P : List Char → Prop) (hp : PSound p P) :
    PSound (wsP (terminatedP p (tagP ((",").data)))) (ItemG P) := by
  intro s s' out h
  unfold wsP at h
  obtain ⟨m1, x, m2, y, h1, h2, h3⟩ := delimitedP_split _ _ _ _ _ _ h
  obtain ⟨hs1, hw1⟩ := multispace0_sound _ _ _ h1
  obtain ⟨m3, z, hpp, htag⟩ := terminatedP_split _ _ _ _ _ h2
  obtain ⟨e, hse, hPe⟩ := hp _ _ _ hpp
  obtain ⟨hs3, _⟩ := tagP_sound _ _ _ _ htag
  obtain ⟨hs4, hw2⟩ := multispace0_sound _ _ _ h3
  refine ⟨x ++ e ++ ((",").data) ++ y, ?_, x, e, y, hw1, hPe, hw2, rfl⟩
  rw [hs1, hse, hs3, hs4]
  simp

theorem parse_mirror_set_psound : PSound parse_mirror_set MirrorSetG := by
  intro s s' out h
  unfold parse_mirror_set at h
  obtain ⟨m1, x, m2, y, h1, h2, h3⟩ := delimitedP_split _ _ _ _ _ _ h
  obtain ⟨hs1, _⟩ := tagP_sound _ _ _ _ h1
  obtain ⟨l, hmany, _⟩ := pmap_split _ _ _ _ _ h2
  obtain ⟨b, hsb, hstar⟩ :=
    many0_star _ (ItemG MirrorEntryG)
      (item_psound parse_mirror_entry MirrorEntryG parse_mirror_entry_psound)
      _ _ _ hmany
  obtain ⟨hs3, _⟩ := tagP_sound _ _ _ _ h3
  refine ⟨("\x7b").data ++ b ++ ("\x7d").data, ?_, b, hstar, rfl⟩
  rw [hs1, hsb, hs3]
  simp

theorem parse_country_psound : PSound parse_country CountryG := by
  intro s s' out h
  unfold parse_country at h
  obtain ⟨m1, m2, y, hlit, hsep, hq⟩ := sepPairP_split _ _ _ _ _ _ h
  obtain ⟨c1, hs1, hl1⟩ := lit_psound _ _ _ hlit
  obtain ⟨c2, hs2, w1, w2, hw1, hw2, hc2⟩ := wsTag_psound _ _ _ _ hsep
  unfold wsP at hq
  obtain ⟨m3, w3, m4, w4, hq1, hq2, hq3⟩ := delimitedP_split _ _ _ _ _ _ hq
  obtain ⟨hs3, hw3⟩ := multispace0_sound _ _ _ hq1
  obtain ⟨ms, hsm, hms⟩ := parse_mirror_set_psound _ _ _ hq2
  obtain ⟨hs4, hw4⟩ := multispace0_sound _ _ _ hq3
  refine ⟨c1 ++ w1 ++ ("=>").data ++ w2 ++ w3 ++ ms ++ w4, ?_, ?_⟩
  · rw [hs1, hs2, hc2, hs3, hsm, hs4]
    simp
  · exact ⟨c1, w1, w2, w3, ms, w4, hl1, hw1, hw2, hw3, hms, hw4, rfl⟩

theorem parse_continent_psound : PSound parse_continent ContinentG := by
  intro s s' out h
  unfold parse_continent at h
  obtain ⟨m1, m2, y, hlit, hsep, hq⟩ := sepPairP_split _ _ _ _ _ _ h
  obtain ⟨c1, hs1, hl1⟩ := lit_psound _ _ _ hlit
  obtain ⟨c2, hs2, w1, w2, hw1, hw2, hc2⟩ := wsTag_psound _ _ _ _ hsep
  obtain ⟨l, hdel, _⟩ := pmap_split _ _ _ _ _ hq
  obtain ⟨m3, x, m4, z, hq1, hq2, hq3⟩ := delimitedP_split _ _ _ _ _ _ hdel
  obtain ⟨hs3, _⟩ := tagP_sound _ _ _ _ hq1
  obtain ⟨b, hsb, hstar⟩ :=
    many0_star _ (ItemG CountryG)
      (item_psound parse_country CountryG parse_country_psound) _ _ _ hq2
  obtain ⟨hs4, _⟩ := tagP_sound _ _ _ _ hq3
  refine ⟨c1 ++ w1 ++ ("=>").data ++ w2 ++ ("\x7b").data ++ b ++ ("\x7d").data,
    ?_, ?_⟩
  · rw [hs1, hs2, hc2, hs3, hsb, hs4]
    simp
  · exact ⟨c1, w1, w2, b, hl1, hw1, hw2, hstar, rfl⟩

/-- C9.  Soundness of the mirror-list parser for the spec's grammar: a
run that parses the document to completion (the rest-empty check of the
main wrapper) only accepts input of exactly the form of the assignment
wrapper around brace-nested continent, country and mirror entries, every
entry terminated by a trailing comma including the last in each set,
every mirror value the literal 1, string literals single-quoted and
non-empty; a failed or partial parse yields no topology at all. -/
theorem c9_grammar_soundness (s : List Char)
    (t : List (List Char × List (List Char × List (List Char))))
    (h : parse_mirrors_full s = some t) : MirrorsDocG s := by
  unfold parse_mirrors_full at h
  cases hp : parse_mirrors s with
  | none => rw [hp] at h; exact Option.noConfusion h
  | some r =>
    rw [hp] at h
    simp only [Option.some_bind] at h
    split_ifs at h with hrest
    unfold parse_mirrors at hp
    obtain ⟨m1, x, m2, y, h1, h2, h3⟩ := delimitedP_split _ _ _ _ _ _ hp
    obtain ⟨hs1, _⟩ := tagP_sound _ _ _ _ h1
    obtain ⟨l, hmany, _⟩ := pmap_split _ _ _ _ _ h2
    obtain ⟨b, hsb, hstar⟩ :=
      many0_star _ (ItemG ContinentG)
        (item_psound parse_continent ContinentG parse_continent_psound)
        _ _ _ hmany
    obtain ⟨hs3, _⟩ := tagP_sound _ _ _ _ h3
    refine ⟨b, hstar, ?_⟩
    rw [hs1, hsb, hs3, hrest]
    simp

/-- C9 witness: a concrete well-formed document parses fully and is
therefore in the grammar. -/
theorem c9_witness : MirrorsDocG c9doc :=
  c9_grammar_soundness c9doc
    [((("Europe").data), [((("Germany").data), [("https://m1/").data])])]
    (by decide)

theorem update_leader_sub {n : Nat} (f : Fin n → Phase) (i j : Fin n) (p : Phase)
    (hp : p ≠ Phase.leader) (h : Function.update f i p j = Phase.leader) :
    f j = Phase.leader := by
  rw [Function.update_apply] at h
  split_ifs at h with hji
  · exact absurd h hp
  · exact h

theorem update_ne_leader {n : Nat} (f : Fin n → Phase) (i j : Fin n) (p : Phase)
    (hp : p ≠ Phase.leader) (hnl : ∀ k, f k ≠ Phase.leader) :
    Function.update f i p j ≠ Phase.leader := fun h =>
  hnl j (update_leader_sub f i j p hp h)

theorem resolver_inv {n : Nat} (ok : Fin n → Bool) (v : MirrorData) (s : RSt n)
    (h : RReach ok v s) :
    s.permits ≤ 1 ∧
    (∀ i, s.phases i = Phase.leader → s.permits = 0) ∧
    (∀ i j, s.phases i = Phase.leader → s.phases j = Phase.leader → i = j) ∧
    (∀ d, s.slot = some d → d = v) ∧
    (∀ d, s.slot = some d → s.permits = 0 ∧ ∀ i, s.phases i ≠ Phase.leader) := by
  induction h with
  | refl =>
    refine ⟨by simp [rinit], ?_, ?_, ?_, ?_⟩
    · intro i hi
      exact absurd hi (by simp [rinit])
    · intro i j hi
      exact absurd hi (by simp [rinit])
    · intro d hd
      exact absurd hd (by simp [rinit])
    · intro d hd
      exact absurd hd (by simp [rinit])
  | tail hreach hstep ih =>
    rename_i b c
    obtain ⟨hperm, hlp, hlu, hsv, hsl⟩ := ih
    obtain ⟨i, hstep⟩ := hstep
    cases hstep with
    | check_hit d h1 h2 =>
      dsimp only
      refine ⟨hperm, ?_, ?_, hsv, ?_⟩
      · intro j hj
        exact hlp j (update_leader_sub _ i j _ (by simp) hj)
      · intro j k hj hk
        exact hlu j k (update_leader_sub _ i j _ (by simp) hj)
          (update_leader_sub _ i k _ (by simp) hk)
      · intro d' hd'
        obtain ⟨hp0, hnl⟩ := hsl d' hd'
        exact ⟨hp0, fun j => update_ne_leader _ i j _ (by simp) hnl⟩
    | check_miss h1 h2 =>
      dsimp only
      refine ⟨hperm, ?_, ?_, hsv, ?_⟩
      · intro j hj
        exact hlp j (update_leader_sub _ i j _ (by simp) hj)
      · intro j k hj hk
        exact hlu j k (update_leader_sub _ i j _ (by simp) hj)
          (update_leader_sub _ i k _ (by simp) hk)
      · intro d' hd'
        obtain ⟨hp0, hnl⟩ := hsl d' hd'
        exact ⟨hp0, fun j => update_ne_leader _ i j _ (by simp) hnl⟩
    | acquire h1 h2 =>
      dsimp only
      refine ⟨by simp, ?_, ?_, hsv, ?_⟩
      · intro j hj
        rfl
      · intro j k hj hk
        rw [Function.update_apply] at hj hk
        split_ifs at hj hk with hji hki hki
        · rw [hji, hki]
        · exact absurd (hlp k hk) (by rw [h2]; simp)
        · exact absurd (hlp j hj) (by rw [h2]; simp)
        · exact absurd (hlp j hj) (by rw [h2]; simp)
      · intro d' hd'
        exact absurd (hsl d' hd').1 (by rw [h2]; simp)
    | observe d h1 h2 =>
      dsimp only
      refine ⟨hperm, ?_, ?_, hsv, ?_⟩
      · intro j hj
        exact hlp j (update_leader_sub _ i j _ (by simp) hj)
      · intro j k hj hk
        exact hlu j k (update_leader_sub _ i j _ (by simp) hj)
          (update_leader_sub _ i k _ (by simp) hk)
      · intro d' hd'
        obtain ⟨hp0, hnl⟩ := hsl d' hd'
        exact ⟨hp0, fun j => update_ne_leader _ i j _ (by simp) hnl⟩
    | leader_ok h1 h2 =>
      dsimp only
      have hnol : ∀ j, Function.update b.phases i (Phase.done v) j ≠ Phase.leader := by
        intro j hj
        have hbj := update_leader_sub _ i j _ (by simp) hj
        have hji := hlu j i hbj h1
        rw [hji, Function.update_same] at hj
        exact Phase.noConfusion hj
      refine ⟨hperm, ?_, ?_, ?_, ?_⟩
      · intro j hj
        exact absurd hj (hnol j)
      · intro j k hj hk
        exact absurd hj (hnol j)
      · intro d hd
        exact (Option.some.inj hd).symm
      · intro d hd
        exact ⟨hlp i h1, hnol⟩
    | leader_fail h1 h2 =>
      dsimp only
      have hslot : b.slot = none := by
        cases hs : b.slot with
        | none => rfl
        | some d => exact absurd h1 ((hsl d hs).2 i)
      refine ⟨by simp, ?_, ?_, hsv, ?_⟩
      · intro j hj
        have hbj := update_leader_sub _ i j _ (by simp) hj
        have hji := hlu j i hbj h1
        rw [hji, Function.update_same] at hj
        exact Phase.noConfusion hj
      · intro j k hj hk
        have hbj := update_leader_sub _ i j _ (by simp) hj
        have hji := hlu j i hbj h1
        rw [hji, Function.update_same] at hj
        exact Phase.noConfusion hj
      · intro d' hd'
        rw [hslot] at hd'
        exact Option.noConfusion hd'

theorem resolver_reach_trans {n : Nat} (ok : Fin n → Bool) (v : MirrorData)
    (s s' : RSt n) (h : RReach ok v s)
    (h2 : Relation.ReflTransGen (RStep ok v) s s') : RReach ok v s' :=
  Relation.ReflTransGen.trans h h2

theorem resolver_allok {n : Nat} (ok : Fin n → Bool) (v : MirrorData)
    (hok : ∀ i, ok i = true) (s : RSt n) (h : RReach ok v s) :
    s.fetches + s.permits = 1 ∧
    (∀ i r, s.phases i = Phase.done r → r = v) := by
  induction h with
  | refl =>
    refine ⟨rfl, ?_⟩
    intro i r hi
    exact absurd hi (by simp [rinit])
  | tail hreach hstep ih =>
    rename_i b c
    obtain ⟨hacc, hdone⟩ := ih
    have hinv := resolver_inv ok v _ hreach
    obtain ⟨i, hstep⟩ := hstep
    cases hstep with
    | check_hit d h1 h2 =>
      dsimp only
      refine ⟨hacc, ?_⟩
      intro j r hj
      rw [Function.update_apply] at hj
      split_ifs at hj with hji
      · exact (Phase.done.inj hj) ▸ hinv.2.2.2.1 d h2
      · exact hdone j r hj
    | check_miss h1 h2 =>
      dsimp only
      refine ⟨hacc, ?_⟩
      intro j r hj
      rw [Function.update_apply] at hj
      split_ifs at hj with hji
      exact hdone j r hj
    | acquire h1 h2 =>
      dsimp only
      refine ⟨by omega, ?_⟩
      intro j r hj
      rw [Function.update_apply] at hj
      split_ifs at hj with hji
      exact hdone j r hj
    | observe d h1 h2 =>
      dsimp only
      refine ⟨hacc, ?_⟩
      intro j r hj
      rw [Function.update_apply] at hj
      split_ifs at hj with hji
      · exact (Phase.done.inj hj) ▸ hinv.2.2.2.1 d h2
      · exact hdone j r hj
    | leader_ok h1 h2 =>
      dsimp only
      refine ⟨hacc, ?_⟩
      intro j r hj
      rw [Function.update_apply] at hj
      split_ifs at hj with hji
      · exact (Phase.done.inj hj).symm
      · exact hdone j r hj
    | leader_fail h1 h2 =>
      exact absurd (hok i) (by rw [h2]; simp)

/-- C3.  Single-flight under success: for any number n of concurrent
callers of one checksum entry, all with working mirrors (every fetch
would succeed and pass the digest check), every reachable state has
started at most one fetch, and every caller that has finished holds the
same verdict, the classification v of the checksum's content.  Entries
of distinct checksums are disjoint, so the bound is per distinct
checksum. -/
theorem c3_single_flight {n : Nat} (ok : Fin n → Bool) (v : MirrorData)
    (s : RSt n) (hok : ∀ i, ok i = true) (hr : RReach ok v s) :
    s.fetches ≤ 1 ∧ (∀ i r, s.phases i = Phase.done r → r = v) := by
  obtain ⟨hacc, hdone⟩ := resolver_allok ok v hok s hr
  exact ⟨by omega, hdone⟩

/-- C4.  Leader failure hands leadership back: from any reachable state
in which caller i holds leadership and its mirror fails, the broadcast
slot was and stays empty, the failing caller itself finishes Dead, the
permit is re-armed, and any caller parked in the select can thereupon
become the next leader, so one failing mirror never leaves the entry
permanently resolved to Dead. -/
theorem c4_leader_failover {n : Nat} (ok : Fin n → Bool) (v : MirrorData)
    (s s' : RSt n) (i : Fin n) (hr : RReach ok v s)
    (hl : s.phases i = Phase.leader) (hf : ok i = false)
    (hs : StepBy ok v i s s') :
    s.slot = none ∧ s'.slot = none ∧ s'.permits = 1 ∧
    s'.phases i = Phase.done MirrorData.Dead ∧
    (∀ j, s'.phases j = Phase.waiting →
      ∃ s'', StepBy ok v j s' s'' ∧ s''.phases j = Phase.leader) := by
  have hinv := resolver_inv ok v s hr
  have hslot : s.slot = none := by
    cases hsl : s.slot with
    | none => rfl
    | some d => exact absurd hl ((hinv.2.2.2.2 d hsl).2 i)
  cases hs with
  | check_hit d h1 h2 => rw [hl] at h1; exact Phase.noConfusion h1
  | check_miss h1 h2 => rw [hl] at h1; exact Phase.noConfusion h1
  | acquire h1 h2 => rw [hl] at h1; exact Phase.noConfusion h1
  | observe d h1 h2 => rw [hl] at h1; exact Phase.noConfusion h1
  | leader_ok h1 h2 => rw [hf] at h2; exact Bool.noConfusion h2
  | leader_fail h1 h2 =>
    refine ⟨hslot, hslot, rfl, Function.update_same i _ _, ?_⟩
    intro j hj
    refine ⟨_, StepBy.acquire _ hj rfl, ?_⟩
    exact Function.update_same j _ _

/-- C5.  The broadcast slot protocol: the slot of a fresh entry is
empty; along every reachable execution, once the slot holds a verdict it
holds exactly that verdict forever (it is written at most once, with the
terminal verdict v of the checksum's content); and a caller that checks
an already-set slot finishes immediately with the cached verdict,
without starting any fetch. -/
theorem c5_slot_write_once {n : Nat} (ok : Fin n → Bool) (v : MirrorData) :
    (rinit n).slot = none ∧
    (∀ s s' : RSt n, ∀ d, RReach ok v s →
      Relation.ReflTransGen (RStep ok v) s s' → s.slot = some d →
      s'.slot = some d) ∧
    (∀ s : RSt n, ∀ d, RReach ok v s → s.slot = some d → d = v) ∧
    (∀ s s' : RSt n, ∀ i d, s.phases i = Phase.ready → s.slot = some d →
      StepBy ok v i s s' →
      s'.phases i = Phase.done d ∧ s'.fetches = s.fetches ∧
        s'.slot = s.slot) := by
  refine ⟨rfl, ?_, ?_, ?_⟩
  · intro s s' d hr htr
    induction htr with
    | refl => intro hd; exact hd
    | tail hsteps hstep ih =>
      rename_i b c
      intro hd
      have hmid := ih hd
      have hmidreach := resolver_reach_trans ok v s b hr hsteps
      have hinv := resolver_inv ok v b hmidreach
      obtain ⟨j, hstep⟩ := hstep
      cases hstep with
      | check_hit d' h1 h2 => exact hmid
      | check_miss h1 h2 => exact hmid
      | acquire h1 h2 => exact hmid
      | observe d' h1 h2 => exact hmid
      | leader_ok h1 h2 => exact absurd h1 ((hinv.2.2.2.2 d hmid).2 j)
      | leader_fail h1 h2 => exact hmid
  · intro s d hr hd
    exact (resolver_inv ok v s hr).2.2.2.1 d hd
  · intro s s' i d h1 h2 hs
    cases hs with
    | check_hit d' h1' h2' =>
      rw [h2] at h2'
      rw [Option.some.injEq] at h2'
      subst h2'
      exact ⟨Function.update_same i _ _, rfl, rfl⟩
    | check_miss h1' h2' => rw [h2] at h2'; exact Option.noConfusion h2'
    | acquire h1' h2' => rw [h1] at h1'; exact Phase.noConfusion h1'
    | observe d' h1' h2' => rw [h1] at h1'; exact Phase.noConfusion h1'
    | leader_ok h1' h2' => rw [h1] at h1'; exact Phase.noConfusion h1'
    | leader_fail h1' h2' => rw [h1] at h1'; exact Phase.noConfusion h1'

theorem reach_rsD (ok : Fin 2 → Bool) (v : MirrorData) : RReach ok v rsD :=
  Relation.ReflTransGen.tail
    (Relation.ReflTransGen.tail
      (Relation.ReflTransGen.tail Relation.ReflTransGen.refl
        ⟨0, StepBy.check_miss rsA (by decide) (by decide)⟩)
      ⟨1, StepBy.check_miss rsB (by decide) (by decide)⟩)
    ⟨0, StepBy.acquire rsC (by decide) (by decide)⟩

theorem reach_rsE : RReach okAll vA rsE :=
  Relation.ReflTransGen.tail (reach_rsD okAll vA)
    ⟨0, StepBy.leader_ok rsD (by decide) (by decide)⟩

theorem reach_rsF : RReach okAll vA rsF :=
  Relation.ReflTransGen.tail reach_rsE
    ⟨1, StepBy.observe rsE vA (by decide) (by decide)⟩

/-- C3 witness: in the two-caller all-mirrors-working run that finishes
both callers, the claim theorem yields at most one started fetch and the
same Alive verdict for every finished caller. -/
theorem c3_witness :
    rsF.fetches ≤ 1 ∧ (∀ i r, rsF.phases i = Phase.done r → r = vA) :=
  c3_single_flight okAll vA rsF (by decide) reach_rsF

/-- C4 witness: caller zero leads and fails; the slot stays empty, the
permit is re-armed, caller zero returns Dead, and waiting caller one can
take leadership. -/
theorem c4_witness :
    rsD.slot = none ∧ rsG.slot = none ∧ rsG.permits = 1 ∧
    rsG.phases 0 = Phase.done MirrorData.Dead ∧
    (∀ j, rsG.phases j = Phase.waiting →
      ∃ s'', StepBy okBad0 vA j rsG s'' ∧ s''.phases j = Phase.leader) :=
  c4_leader_failover okBad0 vA rsD rsG 0 (reach_rsD okBad0 vA) (by decide)
    (by decide) (StepBy.leader_fail rsD (by decide) (by decide))

/-- C5 witness: the fresh entry's slot is empty; after the broadcast the
slot still holds the same verdict one step later; and a caller checking
a set slot finishes with the cached verdict, starting no fetch. -/
theorem c5_witness :
    (rinit 2).slot = none ∧ rsF.slot = some vA ∧
    (rsI.phases 1 = Phase.done vA ∧ rsI.fetches = rsH.fetches ∧
      rsI.slot = rsH.slot) := by
  have hc5 := c5_slot_write_once (n := 2) okAll vA
  refine ⟨hc5.1, ?_, ?_⟩
  · exact hc5.2.1 rsE rsF vA reach_rsE
      (Relation.ReflTransGen.tail Relation.ReflTransGen.refl
        ⟨1, StepBy.observe rsE vA (by decide) (by decide)⟩) rfl
  · exact hc5.2.2.2 rsH rsI 1 vA (by decide) rfl
      (StepBy.check_hit rsH vA (by decide) (by decide))

end TexliveMirrors
